import Mathlib

/-
Verification of the backtesting engine of MarekOzana/streamlit_faber_strat
(file `app.py`): the functions `back_test`, `calc_stats` and their helpers
`_calc_cum_ret`, `_calc_drawdowns`, `_calc_ann_ret`, `_calc_ann_vol`.

Modelling conventions
=====================
* IEEE-754 double values are modelled by the inductive type `V`:
  `nan`, the signed infinities `pinf`/`ninf`, and `fin q` for a finite
  value, carried as an exact rational.  All pandas/numpy arithmetic used
  by the source (`+`, `-`, `*`, `/`, comparisons, `cummax`, `cumprod`,
  `prod`, `std`, `min`) is reproduced on `V` with IEEE semantics:
  NaN propagates and compares false, `x/0` is a signed infinity for
  `x ≠ 0` and NaN for `x = 0`, `inf * 0 = NaN`, `inf - inf = NaN`.
* pandas reductions/scans use their default `skipna=True`: `prod`, `std`
  and `min` ignore NaN entries (but not infinities), and `cumprod` /
  `cummax` emit NaN at NaN input positions while the running accumulator
  ignores those inputs.
* Timestamps are days since the civil epoch 0000-03-01, computed by the
  standard Gregorian `daysFromCivil`; yfinance monthly rows carry the
  first calendar day of each month.  `pd.Timestamp(Y,1,1) -
  pd.offsets.BMonthBegin(1)` always lands on the first business day of
  December of year Y-1 (whether or not Jan 1 is itself a business day,
  rolling back from Jan 1 reaches December's business-month-start), which
  is what `firstPrevMonthDay` computes from the day-of-week.
* `Series.std()` returns `stdev * sqrt(12)` after annualisation; `sqrt 12`
  is irrational, so the model tracks the square `annVolSq = 12 * variance`
  (the real volatility is its square root, a strictly monotone function,
  so equality/zero-ness facts transfer verbatim).  Likewise the ratio
  column `Return / Volatility` is modelled by `calcRetOverVol`, exact on
  every branch a claim touches (zero or NaN volatility, zero or infinite
  return); a nonzero finite return divided by a nonzero volatility is an
  irrational number outside the rational model and is conservatively
  mapped to `nan` -- no theorem below looks at that branch.
* `float ** e` (`_calc_ann_ret`) is exact when the base is 1 or the
  exponent `12/len` is an integer; other cases are irrational and mapped
  to `nan` by `vpow` -- again no theorem below looks at them.
* Python exceptions are modelled by `Option`: `calc_stats` raises
  `ZeroDivisionError` (`12 / len(rets)`) exactly when the table is empty,
  so `calcStats` returns `none` there and `some` of the table otherwise.
-/

namespace Faber

/-- IEEE-754 double domain: NaN, signed infinities, exact finite rationals. -/
inductive V where
  | nan
  | pinf
  | ninf
  | fin (q : ℚ)
deriving DecidableEq

/-- IEEE negation. -/
def vneg : V → V
  | .nan => .nan
  | .pinf => .ninf
  | .ninf => .pinf
  | .fin q => .fin (-q)

/-- IEEE addition (NaN propagates, `inf + (-inf) = NaN`). -/
def vadd : V → V → V
  | .nan, _ => .nan
  | .pinf, .nan => .nan
  | .ninf, .nan => .nan
  | .fin _, .nan => .nan
  | .fin a, .fin b => .fin (a + b)
  | .fin _, .pinf => .pinf
  | .fin _, .ninf => .ninf
  | .pinf, .fin _ => .pinf
  | .ninf, .fin _ => .ninf
  | .pinf, .pinf => .pinf
  | .pinf, .ninf => .nan
  | .ninf, .pinf => .nan
  | .ninf, .ninf => .ninf

/-- IEEE subtraction, `a - b = a + (-b)`. -/
def vsub (a b : V) : V := vadd a (vneg b)

/-- IEEE multiplication (`inf * 0 = NaN`, signs multiply). -/
def vmul : V → V → V
  | .nan, _ => .nan
  | .pinf, .nan => .nan
  | .ninf, .nan => .nan
  | .fin _, .nan => .nan
  | .fin a, .fin b => .fin (a * b)
  | .fin a, .pinf => if 0 < a then .pinf else if a < 0 then .ninf else .nan
  | .fin a, .ninf => if 0 < a then .ninf else if a < 0 then .pinf else .nan
  | .pinf, .fin b => if 0 < b then .pinf else if b < 0 then .ninf else .nan
  | .ninf, .fin b => if 0 < b then .ninf else if b < 0 then .pinf else .nan
  | .pinf, .pinf => .pinf
  | .pinf, .ninf => .ninf
  | .ninf, .pinf => .ninf
  | .ninf, .ninf => .pinf

/-- IEEE division.  Python floats have only a positive zero here, so
`x / 0` carries the sign of `x` (`0/0 = NaN`). -/
def vdiv : V → V → V
  | .nan, _ => .nan
  | .pinf, .nan => .nan
  | .ninf, .nan => .nan
  | .fin _, .nan => .nan
  | .fin a, .fin b =>
      if b = 0 then (if a = 0 then .nan else if 0 < a then .pinf else .ninf)
      else .fin (a / b)
  | .fin _, .pinf => .fin 0
  | .fin _, .ninf => .fin 0
  | .pinf, .fin b => if 0 ≤ b then .pinf else .ninf
  | .ninf, .fin b => if 0 ≤ b then .ninf else .pinf
  | .pinf, .pinf => .nan
  | .pinf, .ninf => .nan
  | .ninf, .pinf => .nan
  | .ninf, .ninf => .nan

/-- IEEE maximum of two non-NaN-ordered values; NaN propagates (only
reached on non-NaN arguments in `cummaxSkipna`). -/
def vmax : V → V → V
  | .nan, _ => .nan
  | .pinf, .nan => .nan
  | .ninf, .nan => .nan
  | .fin _, .nan => .nan
  | .pinf, _ => .pinf
  | .fin _, .pinf => .pinf
  | .ninf, .pinf => .pinf
  | .ninf, b => b
  | .fin a, .ninf => .fin a
  | .fin a, .fin b => .fin (max a b)

/-- IEEE minimum; NaN propagates (only reached on non-NaN arguments in
`pandasMinSkipna`). -/
def vmin : V → V → V
  | .nan, _ => .nan
  | .pinf, .nan => .nan
  | .ninf, .nan => .nan
  | .fin _, .nan => .nan
  | .ninf, _ => .ninf
  | .fin _, .ninf => .ninf
  | .pinf, .ninf => .ninf
  | .pinf, b => b
  | .fin a, .pinf => .fin a
  | .fin a, .fin b => .fin (min a b)

/-- IEEE strict `>` as used by `Series.gt`: any comparison with NaN is false. -/
def vgtB : V → V → Bool
  | .nan, _ => false
  | .pinf, .nan => false
  | .ninf, .nan => false
  | .fin _, .nan => false
  | .fin a, .fin b => decide (b < a)
  | .fin _, .pinf => false
  | .fin _, .ninf => true
  | .pinf, .pinf => false
  | .pinf, .fin _ => true
  | .pinf, .ninf => true
  | .ninf, .pinf => false
  | .ninf, .fin _ => false
  | .ninf, .ninf => false

/-- IEEE `≤`: any comparison with NaN is false. -/
def vleB : V → V → Bool
  | .nan, _ => false
  | .pinf, .nan => false
  | .ninf, .nan => false
  | .fin _, .nan => false
  | .fin a, .fin b => decide (a ≤ b)
  | .fin _, .pinf => true
  | .fin _, .ninf => false
  | .pinf, .pinf => true
  | .pinf, .fin _ => false
  | .pinf, .ninf => false
  | .ninf, .pinf => true
  | .ninf, .fin _ => true
  | .ninf, .ninf => true

/-- `Series.fillna(0)` on one entry. -/
def fillna0 (x : V) : V := if x = .nan then .fin 0 else x

/-- The finite payload of a value, if any. -/
def V.toQ : V → Option ℚ
  | .fin q => some q
  | _ => none

/-- `Series.cumprod()` with the default `skipna=True`: a NaN input yields
NaN at its own position but leaves the running product untouched.  A NaN
produced inside the accumulator itself (for example `inf * 0`) does stick. -/
def cumprodSkipnaGo (c : V) : List V → List V
  | [] => []
  | x :: r =>
      if x = .nan then .nan :: cumprodSkipnaGo c r
      else vmul c x :: cumprodSkipnaGo (vmul c x) r

def cumprodSkipna (xs : List V) : List V := cumprodSkipnaGo (.fin 1) xs

/-- `Series.cummax()` with the default `skipna=True`; starting the running
maximum at `-inf` reproduces "first non-NaN value is its own maximum". -/
def cummaxSkipnaGo (c : V) : List V → List V
  | [] => []
  | x :: r =>
      if x = .nan then .nan :: cummaxSkipnaGo c r
      else vmax c x :: cummaxSkipnaGo (vmax c x) r

def cummaxSkipna (xs : List V) : List V := cummaxSkipnaGo .ninf xs

/-- `Series.prod()` with the default `skipna=True`: NaN inputs are skipped
(infinities are not NA and take part normally). -/
def pandasProdSkipna (xs : List V) : V :=
  xs.foldl (fun c x => if x = .nan then c else vmul c x) (.fin 1)

/-- `Series.min()` with the default `skipna=True`: minimum over the non-NaN
entries, NaN if there are none. -/
def pandasMinSkipna (xs : List V) : V :=
  let vs := xs.filter (· ≠ V.nan)
  if vs.isEmpty then .nan else vs.foldl vmin .pinf

/-- Float `base ** e` as used by `_calc_ann_ret`.  Exact when the base is 1
or the exponent is an integer (the only cases any theorem below evaluates);
otherwise the true value is irrational (or, for a negative base, NaN under
numpy) and the model returns `nan`. -/
def vpow (b : V) (e : ℚ) : V :=
  match b with
  | .nan => .nan
  | .fin q =>
      if q = 1 then .fin 1
      else if e.den = 1 then .fin (q ^ e.num)
      else .nan
  | .pinf => if 0 < e then .pinf else if e = 0 then .fin 1 else .fin 0
  | .ninf => .nan

/-! ## Dates -/

/-- Days since the civil epoch 0000-03-01 (standard Gregorian day count;
`daysFromCivil 1970 1 1 = 719468`). -/
def daysFromCivil (y m d : ℕ) : ℕ :=
  let y' := if m ≤ 2 then y - 1 else y
  let era := y' / 400
  let yoe := y' % 400
  let mp := (m + 9) % 12
  let doy := (153 * mp + 2) / 5 + d - 1
  let doe := yoe * 365 + yoe / 4 - yoe / 100 + doy
  era * 146097 + doe

/-- Day of week, 0 = Monday .. 6 = Sunday (1970-01-01 was a Thursday = 3). -/
def dayOfWeek (days : ℕ) : ℕ := (days + 2) % 7

def isBusinessDay (days : ℕ) : Bool := dayOfWeek days ≤ 4

/-- First business day (business-month-start anchor) of a month; it is one
of the first three calendar days. -/
def firstBusinessDayOfMonth (y m : ℕ) : ℕ :=
  if isBusinessDay (daysFromCivil y m 1) then daysFromCivil y m 1
  else if isBusinessDay (daysFromCivil y m 2) then daysFromCivil y m 2
  else daysFromCivil y m 3

/-- `pd.Timestamp(year=Y, month=1, day=1) - pd.offsets.BMonthBegin(1)`.
Rolling one business-month-start back from Jan 1 always lands on the first
business day of December of the previous year: if Jan 1 is a business day
it is itself the January anchor and one step back is December's anchor,
and if Jan 1 is a weekend the January anchor lies after it so the closest
anchor before it is again December's. -/
def firstPrevMonthDay (startYear : ℕ) : ℕ :=
  firstBusinessDayOfMonth (startYear - 1) 12

/-- `pd.Timestamp(year=start_year, month=1, day=1)`. -/
def startDtDays (startYear : ℕ) : ℕ := daysFromCivil startYear 1 1

/-! ## The input series and the derived columns -/

/-- One observation of the input price series (`data` in `back_test`). -/
structure Obs where
  ts : ℕ
  close : ℚ
deriving DecidableEq

/-- Timestamp at a full-series index (0 out of range; unused there). -/
def tsAt (data : List Obs) (i : ℕ) : ℕ := ((data[i]?).map Obs.ts).getD 0

/-- Close at a full-series index (0 out of range; unused there). -/
def closeAt (data : List Obs) (i : ℕ) : ℚ := ((data[i]?).map Obs.close).getD 0

/-- `Close.rolling(window=n).mean()` at index `i`: mean of the trailing `n`
closes ending at `i`, NaN while fewer than `n` observations exist. -/
def smaV (data : List Obs) (n i : ℕ) : V :=
  if n ≤ i + 1 ∧ i < data.length then
    .fin ((((data.map Obs.close).drop (i + 1 - n)).take n).sum / (n : ℚ))
  else .nan

/-- `Close.gt(sma)` at index `i` (false when the SMA is NaN). -/
def aboveB (data : List Obs) (n i : ℕ) : Bool :=
  vgtB (.fin (closeAt data i)) (smaV data n i)

/-- `(Close.gt(sma)).astype(int).shift(1)` at index `i`: the previous
period's signal, NaN at the first observation. -/
def posV (data : List Obs) (n i : ℕ) : V :=
  if i = 0 then .nan else .fin (if aboveB data n (i - 1) then 1 else 0)

/-- `pos.diff()` at index `i`. -/
def posDiffV (data : List Obs) (n i : ℕ) : V :=
  if i = 0 then .nan else vsub (posV data n i) (posV data n (i - 1))

/-- `pos.diff().shift(-1).fillna(0)` at index `i` of the full series. -/
def tradeV (data : List Obs) (n i : ℕ) : V :=
  fillna0 (if i + 1 < data.length then posDiffV data n (i + 1) else .nan)

/-- `Close.pct_change()` at index `i`: `close[i]/close[i-1] - 1`, NaN at the
first observation, signed infinity / NaN on a zero previous close. -/
def retV (data : List Obs) (i : ℕ) : V :=
  if i = 0 then .nan
  else vsub (vdiv (.fin (closeAt data i)) (.fin (closeAt data (i - 1)))) (.fin 1)

/-- `ret.mul(pos)` at index `i`. -/
def retStratV (data : List Obs) (n i : ℕ) : V :=
  vmul (retV data i) (posV data n i)

/-- Full-series indices surviving `.loc[first_prev_month_day:]` (the pandas
slice on a monotone index keeps the suffix starting at the first timestamp
on/after the cut). -/
def trIdx (data : List Obs) (y : ℕ) : List ℕ :=
  (List.range data.length).dropWhile fun i =>
    decide (tsAt data i < firstPrevMonthDay y)

/-- Number of leading observations dropped by the truncation. -/
def i0Of (data : List Obs) (y : ℕ) : ℕ := data.length - (trIdx data y).length

/-- One factor of the cumulative product in `_calc_cum_ret`:
`series.multiply(series.index >= start_dt).add(1)` at one row. -/
def cumFactor (startDt : ℕ) (p : ℕ × V) : V :=
  vadd (vmul p.2 (.fin (if startDt ≤ p.1 then 1 else 0))) (.fin 1)

/-- `_calc_cum_ret(series, start_dt)`:
`series.multiply(series.index >= start_dt).add(1).cumprod().sub(1)`,
on (timestamp, value) pairs. -/
def calcCumRet (pairs : List (ℕ × V)) (startDt : ℕ) : List V :=
  (cumprodSkipna (pairs.map (cumFactor startDt))).map fun v => vsub v (.fin 1)

/-- `_calc_drawdowns(r_cum)`: `prev_peaks = (1 + r_cum).cummax();
dd = ((1 + r_cum) - prev_peaks) / prev_peaks`. -/
def calcDrawdowns (rcum : List V) : List V :=
  let idx := rcum.map fun v => vadd (.fin 1) v
  let peaks := cummaxSkipna idx
  List.zipWith (fun x m => vdiv (vsub x m) m) idx peaks

/-- The `ret` column restricted to the truncated table, paired with its
timestamps. -/
def retPairs (data : List Obs) (y : ℕ) : List (ℕ × V) :=
  (trIdx data y).map fun i => (tsAt data i, retV data i)

/-- The `ret_strat` column restricted to the truncated table, paired with
its timestamps. -/
def stratPairs (data : List Obs) (y n : ℕ) : List (ℕ × V) :=
  (trIdx data y).map fun i => (tsAt data i, retStratV data n i)

/-- One row of the table returned by `back_test`. -/
structure Row where
  ts : ℕ
  close : ℚ
  sma : V
  pos : V
  trade : V
  ret : V
  retStrat : V
  bh : V
  bhDd : V
  strat : V
  stratDd : V
deriving DecidableEq

/-- `back_test(data, start_year, n_sma)`: the signal columns are computed on
the full series, the table is truncated at
`start_dt - BMonthBegin(1)`, and the cumulative-return and drawdown
columns are computed on the truncated table. -/
def backTest (data : List Obs) (y n : ℕ) : List Row :=
  let ix := trIdx data y
  let bh := calcCumRet (retPairs data y) (startDtDays y)
  let bhDd := calcDrawdowns bh
  let st := calcCumRet (stratPairs data y n) (startDtDays y)
  let stDd := calcDrawdowns st
  (List.range ix.length).map fun j =>
    { ts := tsAt data (ix.getD j 0)
      close := closeAt data (ix.getD j 0)
      sma := smaV data n (ix.getD j 0)
      pos := posV data n (ix.getD j 0)
      trade := tradeV data n (ix.getD j 0)
      ret := retV data (ix.getD j 0)
      retStrat := retStratV data n (ix.getD j 0)
      bh := bh.getD j .nan
      bhDd := bhDd.getD j .nan
      strat := st.getD j .nan
      stratDd := stDd.getD j .nan }

/-! ## The statistics summariser -/

/-- `_calc_ann_ret(rets)`: `(1 + rets).prod() ** (12 / len(rets)) - 1`.
The product skips NaN, the length counts every row.  (The enclosing
`calcStats` guards the empty case, where Python raises.) -/
def calcAnnRet (rets : List V) : V :=
  vsub (vpow (pandasProdSkipna (rets.map fun r => vadd (.fin 1) r))
      (12 / (rets.length : ℚ))) (.fin 1)

/-- Square of `_calc_ann_vol(rets) = rets.std() * sqrt(12)`: twelve times
the sample variance (`ddof=1`, skipna) of the returns.  NaN when fewer
than two non-NaN observations exist or when an infinity is present
(numpy's mean/deviation arithmetic then produces NaN). -/
def calcAnnVolSq (rets : List V) : V :=
  let vals := rets.filter (· ≠ V.nan)
  if vals.any (fun v => v = V.pinf || v = V.ninf) then .nan
  else
    let qs := vals.filterMap V.toQ
    if qs.length ≤ 1 then .nan
    else
      .fin (12 * ((qs.map fun q => (q - qs.sum / (qs.length : ℚ)) ^ 2).sum /
        ((qs.length : ℚ) - 1)))

/-- `stats["Return (annual)"] / stats["Volatility"]` where the volatility is
`sqrt(annVolSq) ≥ 0`.  Exact whenever the volatility is NaN or zero, or the
return is zero or infinite; a nonzero finite return over a positive
volatility is irrational and mapped to `nan` (no theorem looks there). -/
def calcRetOverVol (r volSq : V) : V :=
  match volSq with
  | .nan => .nan
  | .pinf => (match r with | .nan => .nan | .pinf => .nan | .ninf => .nan | .fin _ => .fin 0)
  | .ninf => .nan
  | .fin s =>
      if s = 0 then
        match r with
        | .nan => .nan
        | .pinf => .pinf
        | .ninf => .ninf
        | .fin q => if q = 0 then .nan else if 0 < q then .pinf else .ninf
      else
        match r with
        | .nan => .nan
        | .pinf => .pinf
        | .ninf => .ninf
        | .fin q => if q = 0 then .fin 0 else .nan

/-- One row of the statistics table (`Buy & Hold` or `Strategy`).  The
volatility is carried as its square `annVolSq` (see the header comment);
`retOverVol` is the `Ret / Vol` column. -/
structure StatRow where
  annRet : V
  annVolSq : V
  maxDD : V
  retOverVol : V
deriving DecidableEq

/-- The two-row statistics table returned by `calc_stats`. -/
structure StatsTable where
  buyHold : StatRow
  strategy : StatRow
deriving DecidableEq

/-- The statistics of one return/drawdown column pair. -/
def statRowOf (rets dds : List V) : StatRow :=
  let r := calcAnnRet rets
  let v := calcAnnVolSq rets
  { annRet := r
    annVolSq := v
    maxDD := pandasMinSkipna dds
    retOverVol := calcRetOverVol r v }

/-- `calc_stats(bt_data)`.  On an empty table `12 / len(rets)` raises
`ZeroDivisionError` in Python; this is modelled by `none`. -/
def calcStats (tbl : List Row) : Option StatsTable :=
  if tbl.length = 0 then none
  else
    some
      { buyHold := statRowOf (tbl.map Row.ret) (tbl.map Row.bhDd)
        strategy := statRowOf (tbl.map Row.retStrat) (tbl.map Row.stratDd) }

end Faber

namespace Faber

/-! ## Infrastructure lemmas -/

lemma vmul_comm (a b : V) : vmul a b = vmul b a := by
  rcases a with _ | _ | _ | qa <;> rcases b with _ | _ | _ | qb <;>
    simp [vmul, mul_comm]

lemma dropWhile_range'_spec (p : ℕ → Bool) :
    ∀ n s, ∃ k, k ≤ n ∧
      (List.range' s n).dropWhile p = List.range' (s + k) (n - k) ∧
      (∀ j < k, p (s + j) = true) ∧ (k < n → p (s + k) = false) := by
  intro n
  induction n with
  | zero => intro s; exact ⟨0, by simp [List.dropWhile]⟩
  | succ m ih =>
    intro s
    rw [List.range'_succ]
    by_cases hp : p s
    · obtain ⟨k, hk, hdrop, hall, hstop⟩ := ih (s + 1)
      refine ⟨k + 1, by omega, ?_, ?_, ?_⟩
      · simpa [List.dropWhile_cons, hp, Nat.add_assoc, Nat.add_comm 1 k,
          Nat.succ_sub_succ] using hdrop
      · intro j hj
        rcases Nat.eq_zero_or_pos j with h0 | h0
        · simpa [h0] using hp
        · have := hall (j - 1) (by omega)
          have hsj : s + 1 + (j - 1) = s + j := by omega
          rwa [hsj] at this
      · intro hlt
        have := hstop (by omega)
        have hsk : s + 1 + k = s + (k + 1) := by omega
        rwa [hsk] at this
    · refine ⟨0, by omega, ?_, by omega, ?_⟩
      · simp [List.dropWhile_cons, hp, List.range'_succ]
      · intro _; simpa using hp

/-- Sign-and-degree representation used only to prove that `vmul` is
associative: `none` is NaN, `some (q, e)` stands for `q * ∞ ^ e`. -/
def vrep : V → Option (ℚ × ℕ)
  | .nan => none
  | .fin q => some (q, 0)
  | .pinf => some (1, 1)
  | .ninf => some (-1, 1)

def vrepMul : Option (ℚ × ℕ) → Option (ℚ × ℕ) → Option (ℚ × ℕ)
  | some p, some q => some (p.1 * q.1, p.2 + q.2)
  | _, _ => none

def vunrep : Option (ℚ × ℕ) → V
  | none => .nan
  | some (q, e) =>
      if e = 0 then .fin q
      else if 0 < q then .pinf else if q < 0 then .ninf else .nan

lemma vmul_eq_vunrep (a b : V) :
    vmul a b = vunrep (vrepMul (vrep a) (vrep b)) := by
  rcases a with _ | _ | _ | qa <;> rcases b with _ | _ | _ | qb <;>
    simp [vmul, vrep, vrepMul, vunrep] <;> split_ifs <;>
    first
      | rfl
      | omega
      | (exfalso; nlinarith)

lemma vrepMul_comm (x y : Option (ℚ × ℕ)) : vrepMul x y = vrepMul y x := by
  rcases x with _ | ⟨q, e⟩ <;> rcases y with _ | ⟨r, f⟩ <;>
    simp [vrepMul, mul_comm, Nat.add_comm]

lemma vrepMul_assoc (x y z : Option (ℚ × ℕ)) :
    vrepMul (vrepMul x y) z = vrepMul x (vrepMul y z) := by
  rcases x with _ | ⟨q, e⟩ <;> rcases y with _ | ⟨r, f⟩ <;>
    rcases z with _ | ⟨s, g⟩ <;> simp [vrepMul, mul_assoc, Nat.add_assoc]

lemma vunrep_sign_congr (q r : ℚ) (e f : ℕ) (he : e ≠ 0) (hf : f ≠ 0)
    (h1 : 0 < q ↔ 0 < r) (h2 : q < 0 ↔ r < 0) :
    vunrep (some (q, e)) = vunrep (some (r, f)) := by
  simp only [vunrep, if_neg he, if_neg hf]
  split_ifs <;> tauto

lemma vunrep_absorb_left (x y : Option (ℚ × ℕ)) :
    vunrep (vrepMul (vrep (vunrep x)) y) = vunrep (vrepMul x y) := by
  rcases x with _ | ⟨q, e⟩
  · simp [vunrep, vrep, vrepMul]
  · rcases e with _ | e
    · simp [vunrep, vrep]
    · rcases y with _ | ⟨r, f⟩
      · have hnone : vrepMul (vrep (vunrep (some (q, e + 1)))) none = none := by
          cases vrep (vunrep (some (q, e + 1))) <;> rfl
        simp [hnone, vrepMul, vunrep]
      · rcases lt_trichotomy q 0 with hq | hq | hq
        · have hx : vunrep (some (q, e + 1)) = V.ninf := by
            simp [vunrep, not_lt_of_gt hq, hq]
          rw [hx]
          show vunrep (some (-1 * r, 1 + f)) = vunrep (some (q * r, e + 1 + f))
          exact vunrep_sign_congr _ _ _ _ (by omega) (by omega)
            ⟨fun h => by nlinarith, fun h => by nlinarith⟩
            ⟨fun h => by nlinarith, fun h => by nlinarith⟩
        · subst hq
          have hx : vunrep (some ((0 : ℚ), e + 1)) = V.nan := by
            simp [vunrep]
          rw [hx]
          simp [vrep, vrepMul, vunrep]
        · have hx : vunrep (some (q, e + 1)) = V.pinf := by
            simp [vunrep, hq]
          rw [hx]
          show vunrep (some (1 * r, 1 + f)) = vunrep (some (q * r, e + 1 + f))
          exact vunrep_sign_congr _ _ _ _ (by omega) (by omega)
            ⟨fun h => by nlinarith, fun h => by nlinarith⟩
            ⟨fun h => by nlinarith, fun h => by nlinarith⟩

lemma vunrep_absorb_right (x y : Option (ℚ × ℕ)) :
    vunrep (vrepMul x (vrep (vunrep y))) = vunrep (vrepMul x y) := by
  rw [vrepMul_comm x, vrepMul_comm x]
  exact vunrep_absorb_left y x

lemma vmul_assoc (a b c : V) : vmul (vmul a b) c = vmul a (vmul b c) := by
  rw [vmul_eq_vunrep (vmul a b) c, vmul_eq_vunrep a b,
    vunrep_absorb_left, vrepMul_assoc, vmul_eq_vunrep a (vmul b c),
    vmul_eq_vunrep b c, vunrep_absorb_right]

lemma vmin_comm (a b : V) : vmin a b = vmin b a := by
  rcases a with _ | _ | _ | qa <;> rcases b with _ | _ | _ | qb <;>
    simp [vmin, min_comm]

lemma vmin_assoc (a b c : V) : vmin (vmin a b) c = vmin a (vmin b c) := by
  rcases a with _ | _ | _ | qa <;> rcases b with _ | _ | _ | qb <;>
    rcases c with _ | _ | _ | qc <;> simp [vmin, min_assoc]

lemma cumprodSkipnaGo_length (c : V) (xs : List V) :
    (cumprodSkipnaGo c xs).length = xs.length := by
  induction xs generalizing c with
  | nil => rfl
  | cons x r ih =>
    by_cases hx : x = V.nan <;> simp [cumprodSkipnaGo, hx, ih]

lemma cumprodSkipna_length (xs : List V) :
    (cumprodSkipna xs).length = xs.length := cumprodSkipnaGo_length _ xs

lemma cumprodSkipnaGo_getD (c : V) (xs : List V) (j : ℕ)
    (hj : j < xs.length) :
    (cumprodSkipnaGo c xs).getD j V.nan =
      if xs.getD j V.nan = V.nan then V.nan
      else ((xs.take (j + 1)).filter (· ≠ V.nan)).foldl vmul c := by
  induction xs generalizing c j with
  | nil => simp at hj
  | cons x r ih =>
    by_cases hx : x = V.nan
    · rcases j with _ | j
      · simp [cumprodSkipnaGo, hx]
      · have hj' : j < r.length := by simpa using hj
        simpa [cumprodSkipnaGo, hx, List.filter_cons] using ih c j hj'
    · rcases j with _ | j
      · simp [cumprodSkipnaGo, hx, List.filter_cons]
      · have hj' : j < r.length := by simpa using hj
        simpa [cumprodSkipnaGo, hx, List.filter_cons] using ih (vmul c x) j hj'

lemma cumprodSkipna_getD (xs : List V) (j : ℕ) (hj : j < xs.length) :
    (cumprodSkipna xs).getD j V.nan =
      if xs.getD j V.nan = V.nan then V.nan
      else ((xs.take (j + 1)).filter (· ≠ V.nan)).foldl vmul (V.fin 1) :=
  cumprodSkipnaGo_getD _ xs j hj

lemma cummaxSkipnaGo_length (c : V) (xs : List V) :
    (cummaxSkipnaGo c xs).length = xs.length := by
  induction xs generalizing c with
  | nil => rfl
  | cons x r ih =>
    by_cases hx : x = V.nan <;> simp [cummaxSkipnaGo, hx, ih]

lemma cummaxSkipna_length (xs : List V) :
    (cummaxSkipna xs).length = xs.length := cummaxSkipnaGo_length _ xs

lemma cummaxSkipnaGo_getD (c : V) (xs : List V) (j : ℕ)
    (hj : j < xs.length) :
    (cummaxSkipnaGo c xs).getD j V.nan =
      if xs.getD j V.nan = V.nan then V.nan
      else ((xs.take (j + 1)).filter (· ≠ V.nan)).foldl vmax c := by
  induction xs generalizing c j with
  | nil => simp at hj
  | cons x r ih =>
    by_cases hx : x = V.nan
    · rcases j with _ | j
      · simp [cummaxSkipnaGo, hx]
      · have hj' : j < r.length := by simpa using hj
        simpa [cummaxSkipnaGo, hx, List.filter_cons] using ih c j hj'
    · rcases j with _ | j
      · simp [cummaxSkipnaGo, hx, List.filter_cons]
      · have hj' : j < r.length := by simpa using hj
        simpa [cummaxSkipnaGo, hx, List.filter_cons] using ih (vmax c x) j hj'

lemma cummaxSkipna_getD (xs : List V) (j : ℕ) (hj : j < xs.length) :
    (cummaxSkipna xs).getD j V.nan =
      if xs.getD j V.nan = V.nan then V.nan
      else ((xs.take (j + 1)).filter (· ≠ V.nan)).foldl vmax V.ninf :=
  cummaxSkipnaGo_getD _ xs j hj

lemma foldl_vmul_fin (c : ℚ) (qs : List ℚ) :
    (qs.map V.fin).foldl vmul (V.fin c) = V.fin (qs.foldl (· * ·) c) := by
  induction qs generalizing c with
  | nil => rfl
  | cons q r ih => simpa [vmul] using ih (c * q)

lemma foldl_vmax_fin (c : ℚ) (qs : List ℚ) :
    (qs.map V.fin).foldl vmax (V.fin c) = V.fin (qs.foldl max c) := by
  induction qs generalizing c with
  | nil => rfl
  | cons q r ih => simpa [vmax] using ih (max c q)

lemma filter_ne_nan_map_fin (qs : List ℚ) :
    (qs.map V.fin).filter (· ≠ V.nan) = qs.map V.fin := by
  induction qs with
  | nil => rfl
  | cons q r ih => simp [List.filter_cons, ih]

lemma foldl_mul_pos (c : ℚ) (qs : List ℚ) (hc : 0 < c)
    (h : ∀ q ∈ qs, 0 < q) : 0 < qs.foldl (· * ·) c := by
  induction qs generalizing c with
  | nil => exact hc
  | cons q r ih =>
    exact ih (c * q) (mul_pos hc (h q (by simp))) fun x hx => h x (by simp [hx])

lemma le_foldl_max (c : ℚ) (qs : List ℚ) : c ≤ qs.foldl max c := by
  induction qs generalizing c with
  | nil => exact le_refl c
  | cons q r ih => exact le_trans (le_max_left c q) (ih (max c q))

lemma mem_le_foldl_max (c : ℚ) (qs : List ℚ) (q : ℚ) (hq : q ∈ qs) :
    q ≤ qs.foldl max c := by
  induction qs generalizing c with
  | nil => simp at hq
  | cons x r ih =>
    rcases List.mem_cons.1 hq with h | h
    · subst h
      exact le_trans (le_max_right c q) (le_foldl_max _ r)
    · exact ih (max c x) h

lemma foldl_max_le (c b : ℚ) (qs : List ℚ) (hc : c ≤ b)
    (h : ∀ q ∈ qs, q ≤ b) : qs.foldl max c ≤ b := by
  induction qs generalizing c with
  | nil => exact hc
  | cons q r ih =>
    exact ih (max c q) (max_le hc (h q (by simp))) fun x hx => h x (by simp [hx])

lemma trIdx_eq (data : List Obs) (y : ℕ) :
    trIdx data y = List.range' (i0Of data y) (data.length - i0Of data y) ∧
      i0Of data y ≤ data.length ∧
      (∀ k < i0Of data y, tsAt data k < firstPrevMonthDay y) ∧
      (i0Of data y < data.length →
        firstPrevMonthDay y ≤ tsAt data (i0Of data y)) := by
  obtain ⟨k, hk, hdrop, hall, hstop⟩ :=
    dropWhile_range'_spec
      (fun i => decide (tsAt data i < firstPrevMonthDay y)) data.length 0
  have htr : trIdx data y = List.range' k (data.length - k) := by
    simpa [trIdx, List.range_eq_range'] using hdrop
  have hi0 : i0Of data y = k := by
    simp only [i0Of, htr, List.length_range']
    omega
  subst hi0
  refine ⟨htr, hk, ?_, ?_⟩
  · intro j hj
    simpa using hall j hj
  · intro hlt
    have := hstop hlt
    simpa using this

lemma trIdx_length (data : List Obs) (y : ℕ) :
    (trIdx data y).length = data.length - i0Of data y := by
  rw [(trIdx_eq data y).1, List.length_range']

lemma trIdx_getD (data : List Obs) (y : ℕ) (j : ℕ)
    (hj : j < (trIdx data y).length) :
    (trIdx data y).getD j 0 = i0Of data y + j := by
  have h1 := (trIdx_eq data y).1
  have hj2 : j < data.length - i0Of data y := by
    rw [trIdx_length] at hj
    exact hj
  rw [List.getD_eq_getElem?_getD, h1, List.getElem?_range' _ _ hj2]
  simp

lemma i0Of_pos (data : List Obs) (y : ℕ) (hL : 0 < data.length)
    (h0 : tsAt data 0 < firstPrevMonthDay y) : 1 ≤ i0Of data y := by
  by_contra hc
  have h1 : i0Of data y = 0 := by omega
  have := (trIdx_eq data y).2.2.2
  rw [h1] at this
  exact absurd h0 (not_lt.2 (this hL))

lemma backTest_length (data : List Obs) (y n : ℕ) :
    (backTest data y n).length = (trIdx data y).length := by
  simp [backTest]

lemma backTest_getElemQ (data : List Obs) (y n : ℕ) (j : ℕ)
    (hj : j < (trIdx data y).length) :
    (backTest data y n)[j]? = some
      { ts := tsAt data (i0Of data y + j)
        close := closeAt data (i0Of data y + j)
        sma := smaV data n (i0Of data y + j)
        pos := posV data n (i0Of data y + j)
        trade := tradeV data n (i0Of data y + j)
        ret := retV data (i0Of data y + j)
        retStrat := retStratV data n (i0Of data y + j)
        bh := (calcCumRet (retPairs data y) (startDtDays y)).getD j .nan
        bhDd := (calcDrawdowns
          (calcCumRet (retPairs data y) (startDtDays y))).getD j .nan
        strat := (calcCumRet (stratPairs data y n) (startDtDays y)).getD j .nan
        stratDd := (calcDrawdowns
          (calcCumRet (stratPairs data y n) (startDtDays y))).getD j .nan } := by
  have hget := trIdx_getD data y j hj
  simp only [backTest, List.getElem?_map, List.getElem?_range, hj,
    Option.map_some', hget]

lemma getD_map_of_lt {α β : Type} (f : α → β) (l : List α) (j : ℕ) (d : β)
    (dA : α) (hj : j < l.length) :
    (l.map f).getD j d = f (l.getD j dA) := by
  rw [List.getD_eq_getElem?_getD, List.getElem?_map,
    List.getElem?_eq_getElem hj, List.getD_eq_getElem?_getD,
    List.getElem?_eq_getElem hj]
  rfl

lemma getD_zipWith_of_lt {α β γ : Type} (f : α → β → γ) (l₁ : List α)
    (l₂ : List β) (j : ℕ) (d : γ) (dA : α) (dB : β)
    (h₁ : j < l₁.length) (h₂ : j < l₂.length) :
    (List.zipWith f l₁ l₂).getD j d = f (l₁.getD j dA) (l₂.getD j dB) := by
  have hz : j < (List.zipWith f l₁ l₂).length := by
    rw [List.length_zipWith]
    omega
  rw [List.getD_eq_getElem?_getD, List.getElem?_eq_getElem hz,
    List.getD_eq_getElem?_getD, List.getElem?_eq_getElem h₁,
    List.getD_eq_getElem?_getD, List.getElem?_eq_getElem h₂]
  simp [List.getElem_zipWith]

lemma retPairs_length (data : List Obs) (y : ℕ) :
    (retPairs data y).length = (trIdx data y).length := by
  simp [retPairs]

lemma stratPairs_length (data : List Obs) (y n : ℕ) :
    (stratPairs data y n).length = (trIdx data y).length := by
  simp [stratPairs]

lemma calcCumRet_length (pairs : List (ℕ × V)) (sd : ℕ) :
    (calcCumRet pairs sd).length = pairs.length := by
  simp [calcCumRet, cumprodSkipna_length]

lemma calcDrawdowns_length (rc : List V) :
    (calcDrawdowns rc).length = rc.length := by
  simp [calcDrawdowns, cummaxSkipna_length]

lemma calcCumRet_getD_char (pairs : List (ℕ × V)) (sd : ℕ) (j : ℕ)
    (hj : j < pairs.length) :
    (calcCumRet pairs sd).getD j .nan =
      vsub (if cumFactor sd (pairs.getD j (0, .nan)) = V.nan then V.nan
        else (((pairs.take (j + 1)).map (cumFactor sd)).filter
          (· ≠ V.nan)).foldl vmul (V.fin 1)) (.fin 1) := by
  have hm : j < (pairs.map (cumFactor sd)).length := by simpa using hj
  have hc : j < (cumprodSkipna (pairs.map (cumFactor sd))).length := by
    rwa [cumprodSkipna_length]
  rw [calcCumRet, getD_map_of_lt _ _ j _ V.nan hc,
    cumprodSkipna_getD _ j hm, getD_map_of_lt _ _ j _ (0, V.nan) hj,
    List.map_take]

lemma calcDrawdowns_getD (rc : List V) (j : ℕ) (hj : j < rc.length) :
    (calcDrawdowns rc).getD j .nan =
      vdiv (vsub (vadd (.fin 1) (rc.getD j .nan))
          ((cummaxSkipna (rc.map (vadd (.fin 1)))).getD j .nan))
        ((cummaxSkipna (rc.map (vadd (.fin 1)))).getD j .nan) := by
  have h₁ : j < (rc.map (vadd (.fin 1))).length := by simpa using hj
  have h₂ : j < (cummaxSkipna (rc.map (vadd (.fin 1)))).length := by
    rwa [cummaxSkipna_length]
  rw [calcDrawdowns, getD_zipWith_of_lt _ _ _ j _ V.nan V.nan h₁ h₂,
    getD_map_of_lt _ _ j _ V.nan hj]

lemma backTest_row (data : List Obs) (y n t : ℕ)
    (ht : t < (backTest data y n).length) :
    (backTest data y n)[t] =
      { ts := tsAt data (i0Of data y + t)
        close := closeAt data (i0Of data y + t)
        sma := smaV data n (i0Of data y + t)
        pos := posV data n (i0Of data y + t)
        trade := tradeV data n (i0Of data y + t)
        ret := retV data (i0Of data y + t)
        retStrat := retStratV data n (i0Of data y + t)
        bh := (calcCumRet (retPairs data y) (startDtDays y)).getD t .nan
        bhDd := (calcDrawdowns
          (calcCumRet (retPairs data y) (startDtDays y))).getD t .nan
        strat := (calcCumRet (stratPairs data y n) (startDtDays y)).getD t .nan
        stratDd := (calcDrawdowns
          (calcCumRet (stratPairs data y n) (startDtDays y))).getD t .nan } := by
  have ht2 : t < (trIdx data y).length := by rwa [backTest_length] at ht
  have h := backTest_getElemQ data y n t ht2
  rw [List.getElem?_eq_getElem ht] at h
  exact Option.some.inj h

lemma vsub_fin (a b : ℚ) : vsub (.fin a) (.fin b) = .fin (a - b) := by
  simp [vsub, vadd, vneg, sub_eq_add_neg]

lemma backTest_pos_len (data : List Obs) (y n : ℕ)
    (h : 0 < (backTest data y n).length) : 0 < data.length := by
  rw [backTest_length, trIdx_length] at h
  omega

lemma backTest_len_le (data : List Obs) (y n : ℕ) :
    i0Of data y + (backTest data y n).length ≤ data.length := by
  rw [backTest_length, trIdx_length]
  have := (trIdx_eq data y).2.1
  omega

lemma fillna0_vsub_fin (a b : ℚ) :
    fillna0 (vsub (.fin a) (.fin b)) = vsub (.fin a) (.fin b) := by
  simp [vsub_fin, fillna0]

/-- Claim C2: on every table returned by `back_test` (under the engine's
input contract that at least one observation precedes the truncation
date), `trade[t] = position[t+1] - position[t]` on every row but the
last, and the last row's trade is 0. -/
theorem C2_trade_is_forward_position_diff (data : List Obs) (y n : ℕ)
    (hhist : tsAt data 0 < firstPrevMonthDay y) :
    (∀ (t : ℕ) (ht : t + 1 < (backTest data y n).length),
      ((backTest data y n)[t]).trade =
        vsub ((backTest data y n)[t + 1]).pos ((backTest data y n)[t]).pos) ∧
    (∀ hne : 0 < (backTest data y n).length,
      ((backTest data y n)[(backTest data y n).length - 1]).trade =
        .fin 0) := by
  constructor
  · intro t ht
    have hL : 0 < data.length := backTest_pos_len data y n (by omega)
    have hi0 : 1 ≤ i0Of data y := i0Of_pos data y hL hhist
    have hle := backTest_len_le data y n
    rw [backTest_row data y n t (by omega), backTest_row data y n (t + 1) ht]
    simp only
    have hcut : i0Of data y + t + 1 < data.length := by omega
    have e1 : i0Of data y + (t + 1) = i0Of data y + t + 1 := rfl
    have hp1 : posV data n (i0Of data y + t + 1) =
        .fin (if aboveB data n (i0Of data y + t + 1 - 1) then 1 else 0) := by
      rw [posV, if_neg (by omega)]
    have hp0 : posV data n (i0Of data y + t) =
        .fin (if aboveB data n (i0Of data y + t - 1) then 1 else 0) := by
      rw [posV, if_neg (by omega)]
    rw [e1, tradeV, if_pos hcut, posDiffV, if_neg (by omega), hp1]
    have h1 : i0Of data y + t + 1 - 1 = i0Of data y + t := by omega
    rw [h1, hp0, fillna0_vsub_fin]
  · intro hne
    have hL : 0 < data.length := backTest_pos_len data y n hne
    have hlen : (backTest data y n).length = data.length - i0Of data y := by
      rw [backTest_length, trIdx_length]
    have hi0le : i0Of data y ≤ data.length := (trIdx_eq data y).2.1
    rw [backTest_row data y n ((backTest data y n).length - 1)
      (Nat.sub_lt hne Nat.one_pos)]
    simp only
    have hlast : ¬ (i0Of data y + ((backTest data y n).length - 1) + 1 <
        data.length) := by omega
    rw [tradeV, if_neg hlast]
    rfl

lemma closeAt_eq_getD (data : List Obs) (i : ℕ) :
    closeAt data i = (data.map Obs.close).getD i 0 := by
  rw [closeAt, List.getD_eq_getElem?_getD, List.getElem?_map]

lemma closeAt_map_getElem (data : List Obs) (k : ℕ)
    (h : k < (data.map Obs.close).length) :
    (data.map Obs.close)[k] = closeAt data k := by
  rw [closeAt_eq_getD, List.getD_eq_getElem?_getD, List.getElem?_eq_getElem h]
  rfl

lemma smaV_congr (data2 data : List Obs) (n i : ℕ)
    (hlen : data2.length = data.length)
    (hcl : ∀ k ≤ i, closeAt data2 k = closeAt data k) :
    smaV data2 n i = smaV data n i := by
  unfold smaV
  rw [hlen]
  by_cases hc : n ≤ i + 1 ∧ i < data.length
  · rw [if_pos hc, if_pos hc]
    have hn := hc.1
    have hslice : ((data2.map Obs.close).drop (i + 1 - n)).take n =
        ((data.map Obs.close).drop (i + 1 - n)).take n := by
      apply List.ext_getElem
      · simp [hlen]
      · intro k h1 h2
        rw [List.getElem_take, List.getElem_drop, List.getElem_take,
          List.getElem_drop]
        have hb1 : i + 1 - n + k < (data2.map Obs.close).length := by
          simp only [List.length_take, List.length_drop,
            List.length_map] at h1
          simp only [List.length_map]
          omega
        have hb2 : i + 1 - n + k < (data.map Obs.close).length := by
          simp only [List.length_map] at hb1 ⊢
          omega
        rw [closeAt_map_getElem data2 _ hb1, closeAt_map_getElem data _ hb2]
        apply hcl
        simp only [List.length_take, List.length_drop, List.length_map] at h1
        omega
    rw [hslice]
  · rw [if_neg hc, if_neg hc]

lemma aboveB_congr (data2 data : List Obs) (n i : ℕ)
    (hlen : data2.length = data.length)
    (hcl : ∀ k ≤ i, closeAt data2 k = closeAt data k) :
    aboveB data2 n i = aboveB data n i := by
  unfold aboveB
  rw [smaV_congr data2 data n i hlen hcl, hcl i (le_refl i)]

lemma posV_congr (data2 data : List Obs) (n i : ℕ)
    (hlen : data2.length = data.length)
    (hcl : ∀ k < i, closeAt data2 k = closeAt data k) :
    posV data2 n i = posV data n i := by
  rcases Nat.eq_zero_or_pos i with h0 | h0
  · simp [posV, h0]
  · have e1 : posV data2 n i = .fin (if aboveB data2 n (i - 1) then 1 else 0) := by
      rw [posV, if_neg (by omega)]
    have e2 : posV data n i = .fin (if aboveB data n (i - 1) then 1 else 0) := by
      rw [posV, if_neg (by omega)]
    rw [e1, e2,
      aboveB_congr data2 data n (i - 1) hlen fun k hk => hcl k (by omega)]

lemma trIdx_congr (data2 data : List Obs) (y : ℕ)
    (hlen : data2.length = data.length)
    (hts : ∀ i, tsAt data2 i = tsAt data i) :
    trIdx data2 y = trIdx data y := by
  unfold trIdx
  rw [hlen]
  congr 1
  funext i
  rw [hts i]

lemma i0Of_congr (data2 data : List Obs) (y : ℕ)
    (hlen : data2.length = data.length)
    (hts : ∀ i, tsAt data2 i = tsAt data i) :
    i0Of data2 y = i0Of data y := by
  unfold i0Of
  rw [hlen, trIdx_congr data2 data y hlen hts]

lemma smaV_not_inf (data : List Obs) (n i : ℕ) :
    smaV data n i ≠ .pinf ∧ smaV data n i ≠ .ninf := by
  unfold smaV
  split_ifs <;> simp

/-- Claim C1: position is the lag-one above-SMA signal.  Under the
engine's input contract (at least one observation strictly before the
truncation date), on every row of the `back_test` table: position is 1
exactly when the previous full-series row's close strictly exceeds its
defined SMA (the trailing `n`-mean), an undefined SMA yields position 0,
and position at a row depends only on closes at strictly earlier indices
(changing the current or any later close never changes it). -/
theorem C1_position_lag_and_causality (data : List Obs) (y n : ℕ)
    (hhist : tsAt data 0 < firstPrevMonthDay y) :
    (∀ (t : ℕ) (ht : t < (backTest data y n).length),
      (((backTest data y n)[t]).pos = .fin 1 ↔
        (∃ s : ℚ, smaV data n (i0Of data y + t - 1) = .fin s ∧
          s < closeAt data (i0Of data y + t - 1))) ∧
      (smaV data n (i0Of data y + t - 1) = .nan →
        ((backTest data y n)[t]).pos = .fin 0)) ∧
    (∀ (data2 : List Obs) (t : ℕ),
      data2.length = data.length →
      (∀ i, tsAt data2 i = tsAt data i) →
      (∀ i < i0Of data y + t, closeAt data2 i = closeAt data i) →
      ((backTest data2 y n)[t]?).map Row.pos =
        ((backTest data y n)[t]?).map Row.pos) := by
  constructor
  · intro t ht
    have hL : 0 < data.length := backTest_pos_len data y n (by omega)
    have hi0 : 1 ≤ i0Of data y := i0Of_pos data y hL hhist
    rw [backTest_row data y n t ht]
    simp only
    rw [posV, if_neg (by omega), aboveB]
    rcases hs : smaV data n (i0Of data y + t - 1) with _ | _ | _ | s
    · constructor
      · constructor
        · intro h
          simp [vgtB] at h
        · rintro ⟨s, hs2, _⟩
          exact absurd hs2 (by simp)
      · intro _
        simp [vgtB]
    · exact absurd hs (smaV_not_inf data n _).1
    · exact absurd hs (smaV_not_inf data n _).2
    · constructor
      · constructor
        · intro h
          refine ⟨s, rfl, ?_⟩
          by_contra hn2
          simp [vgtB, hn2] at h
        · rintro ⟨s2, hs2, hlt⟩
          have : s2 = s := by
            injection hs2 with h2
            exact h2.symm
          subst this
          simp [vgtB, hlt]
      · intro hnan
        exact absurd hnan (by simp)
  · intro data2 t hlen hts hcl
    have htr := trIdx_congr data2 data y hlen hts
    have hi0 := i0Of_congr data2 data y hlen hts
    have hlen2 : (backTest data2 y n).length = (backTest data y n).length := by
      rw [backTest_length, backTest_length, htr]
    by_cases hlt : t < (backTest data y n).length
    · have hlt2 : t < (backTest data2 y n).length := by omega
      rw [List.getElem?_eq_getElem hlt, List.getElem?_eq_getElem hlt2]
      rw [backTest_row data y n t hlt, backTest_row data2 y n t hlt2]
      simp only [Option.map_some']
      rw [hi0, posV_congr data2 data n (i0Of data y + t) hlen hcl]
    · rw [List.getElem?_eq_none (by omega), List.getElem?_eq_none (by omega)]

/-- Concrete witness data for claim C1: five monthly observations
spanning the truncation date for a 2021 backtest. -/
def dataC1w : List Obs :=
  [⟨daysFromCivil 2020 9 1, 5⟩, ⟨daysFromCivil 2020 10 1, 6⟩,
   ⟨daysFromCivil 2020 11 1, 4⟩, ⟨daysFromCivil 2020 12 1, 7⟩,
   ⟨daysFromCivil 2021 1 1, 8⟩]

/-- Claim C1, witness: the hypothesis holds for `dataC1w` and the theorem
applies there. -/
theorem C1_witness :
    tsAt dataC1w 0 < firstPrevMonthDay 2021 ∧
    ((∀ (t : ℕ) (ht : t < (backTest dataC1w 2021 2).length),
      (((backTest dataC1w 2021 2)[t]).pos = .fin 1 ↔
        (∃ s : ℚ, smaV dataC1w 2 (i0Of dataC1w 2021 + t - 1) = .fin s ∧
          s < closeAt dataC1w (i0Of dataC1w 2021 + t - 1))) ∧
      (smaV dataC1w 2 (i0Of dataC1w 2021 + t - 1) = .nan →
        ((backTest dataC1w 2021 2)[t]).pos = .fin 0)) ∧
    (∀ (data2 : List Obs) (t : ℕ),
      data2.length = dataC1w.length →
      (∀ i, tsAt data2 i = tsAt dataC1w i) →
      (∀ i < i0Of dataC1w 2021 + t, closeAt data2 i = closeAt dataC1w i) →
      ((backTest data2 2021 2)[t]?).map Row.pos =
        ((backTest dataC1w 2021 2)[t]?).map Row.pos)) :=
  ⟨by decide, C1_position_lag_and_causality dataC1w 2021 2 (by decide)⟩

/-- Concrete witness data for claim C2. -/
def dataC2w : List Obs :=
  [⟨daysFromCivil 2020 10 1, 10⟩, ⟨daysFromCivil 2020 11 1, 12⟩,
   ⟨daysFromCivil 2020 12 1, 11⟩, ⟨daysFromCivil 2021 1 1, 13⟩]

/-- Claim C2, witness: the hypothesis holds for `dataC2w` and the theorem
applies there. -/
theorem C2_witness :
    tsAt dataC2w 0 < firstPrevMonthDay 2021 ∧
    ((∀ (t : ℕ) (ht : t + 1 < (backTest dataC2w 2021 2).length),
      ((backTest dataC2w 2021 2)[t]).trade =
        vsub ((backTest dataC2w 2021 2)[t + 1]).pos
          ((backTest dataC2w 2021 2)[t]).pos) ∧
    (∀ hne : 0 < (backTest dataC2w 2021 2).length,
      ((backTest dataC2w 2021 2)[(backTest dataC2w 2021 2).length - 1]).trade =
        .fin 0)) :=
  ⟨by decide, C2_trade_is_forward_position_diff dataC2w 2021 2 (by decide)⟩

lemma tsAt_eq_getD (data : List Obs) (i : ℕ) :
    tsAt data i = (data.map Obs.ts).getD i 0 := by
  rw [tsAt, List.getD_eq_getElem?_getD, List.getElem?_map]

lemma tsAt_map_getElem (data : List Obs) (k : ℕ)
    (h : k < (data.map Obs.ts).length) :
    (data.map Obs.ts)[k] = tsAt data k := by
  rw [tsAt_eq_getD, List.getD_eq_getElem?_getD, List.getElem?_eq_getElem h]
  rfl

lemma filter_eq_drop {p : ℕ → Bool} :
    ∀ (l : List ℕ) (k : ℕ), k ≤ l.length →
      (∀ (i : ℕ) (hi : i < l.length), i < k → p (l[i]) = false) →
      (∀ (i : ℕ) (hi : i < l.length), k ≤ i → p (l[i]) = true) →
      l.filter p = l.drop k := by
  intro l
  induction l with
  | nil => intro k hk _ _; simp at hk; simp [hk]
  | cons x r ih =>
    intro k hk hlo hhi
    rcases Nat.eq_zero_or_pos k with h0 | h0
    · subst h0
      rw [List.drop_zero, List.filter_eq_self.2]
      intro a ha
      obtain ⟨i, hi, rfl⟩ := List.mem_iff_getElem.1 ha
      exact hhi i hi (Nat.zero_le i)
    · have hx : p x = false := by
        have := hlo 0 (by simp) h0
        simpa using this
      rcases Nat.exists_eq_add_of_le h0 with ⟨k2, rfl⟩
      rw [List.filter_cons, if_neg (by simp [hx])]
      have hdrop : (x :: r).drop (1 + k2) = r.drop k2 := by
        rw [Nat.add_comm 1 k2]
        rfl
      rw [hdrop]
      apply ih k2 (by simp only [List.length_cons] at hk; omega)
      · intro i hi hik
        have := hlo (i + 1) (by simpa using hi) (by omega)
        simpa using this
      · intro i hi hik
        have := hhi (i + 1) (by simpa using hi) (by omega)
        simpa using this

/-- Definition following the spec's words (for the claim C4 comparison
only): the last business-month-start on or before Jan 1 of year `y` -- Jan
1 itself when it is a business day, otherwise December's first business
day. -/
def lastBusinessMonthStartOnOrBefore (y : ℕ) : ℕ :=
  if isBusinessDay (daysFromCivil y 1 1) then daysFromCivil y 1 1
  else firstBusinessDayOfMonth (y - 1) 12

/-- Concrete data for the claim C4 counterexample: four monthly rows
spanning 2021-01-01. -/
def dataC4 : List Obs :=
  [⟨daysFromCivil 2020 11 1, 1⟩, ⟨daysFromCivil 2020 12 1, 1⟩,
   ⟨daysFromCivil 2021 1 1, 1⟩, ⟨daysFromCivil 2021 2 1, 1⟩]

/-- Claim C4, counterexample: on a monthly series spanning 2021-01-01 the
first row of the `back_test` table is 2020-12-01, while the last
business-month-start on or before 2021-01-01 is 2021-01-01 itself
(2021-01-01 is a Friday), so the claim's characterisation of the first
row is false. -/
theorem C4_counterexample :
    ((backTest dataC4 2021 10).head?).map Row.ts =
      some (daysFromCivil 2020 12 1) ∧
    lastBusinessMonthStartOnOrBefore 2021 = daysFromCivil 2021 1 1 ∧
    daysFromCivil 2020 12 1 ≠ daysFromCivil 2021 1 1 := by decide

/-- Claim C4, amended: for a sorted input series the `back_test` table
consists exactly of the input rows with timestamp on/after
`start_dt - BMonthBegin(1)`, i.e. the first business day of December of
`start_year - 1`; in particular the first row is the earliest
observation on/after that December cut (one period of context before the
nominal start for standard monthly data). -/
theorem C4_truncation_amended (data : List Obs) (y n : ℕ)
    (hsort : (data.map Obs.ts).Pairwise (· < ·)) :
    (backTest data y n).map Row.ts =
      (data.map Obs.ts).filter
        (fun s => decide (firstPrevMonthDay y ≤ s)) := by
  have hi0le : i0Of data y ≤ data.length := (trIdx_eq data y).2.1
  have hfd : (data.map Obs.ts).filter
      (fun s => decide (firstPrevMonthDay y ≤ s)) =
      (data.map Obs.ts).drop (i0Of data y) := by
    apply filter_eq_drop (data.map Obs.ts) (i0Of data y) (by simpa using hi0le)
    · intro i hi hik
      rw [tsAt_map_getElem data i hi]
      have := (trIdx_eq data y).2.2.1 i hik
      simp [this, not_le.2 this]
    · intro i hi hik
      rw [tsAt_map_getElem data i hi]
      have hiL : i < data.length := by simpa using hi
      have hi0L : i0Of data y < data.length := by omega
      have hcut : firstPrevMonthDay y ≤ tsAt data (i0Of data y) :=
        (trIdx_eq data y).2.2.2 hi0L
      rcases Nat.eq_or_lt_of_le hik with heq | hlt
      · subst heq
        simp [hcut]
      · have hmono := (List.pairwise_iff_getElem.1 hsort) (i0Of data y) i
          (by simpa using hi0L) hi hlt
        rw [tsAt_map_getElem data _ (by simpa using hi0L),
          tsAt_map_getElem data i hi] at hmono
        have : firstPrevMonthDay y ≤ tsAt data i := by omega
        simp [this]
  rw [hfd]
  apply List.ext_getElem
  · rw [List.length_map, backTest_length, trIdx_length, List.length_drop,
      List.length_map]
  · intro j h1 h2
    have hj : j < (backTest data y n).length := by simpa using h1
    rw [List.getElem_map, backTest_row data y n j hj, List.getElem_drop]
    have hb : i0Of data y + j < (data.map Obs.ts).length := by
      simp only [List.length_drop, List.length_map] at h2
      simp only [List.length_map]
      omega
    rw [tsAt_map_getElem data _ hb]

/-- Concrete witness data for the amended claim C4. -/
def dataC4w : List Obs :=
  [⟨daysFromCivil 2020 10 1, 3⟩, ⟨daysFromCivil 2020 11 1, 4⟩,
   ⟨daysFromCivil 2020 12 1, 5⟩, ⟨daysFromCivil 2021 1 1, 6⟩]

/-- Claim C4, witness for the amended theorem. -/
theorem C4_witness :
    (dataC4w.map Obs.ts).Pairwise (· < ·) ∧
    (backTest dataC4w 2021 3).map Row.ts =
      (dataC4w.map Obs.ts).filter
        (fun s => decide (firstPrevMonthDay 2021 ≤ s)) :=
  ⟨by decide, C4_truncation_amended dataC4w 2021 3 (by decide)⟩

lemma vmul_one (c : V) : vmul c (.fin 1) = c := by
  rcases c with _ | _ | _ | q <;> simp [vmul, zero_lt_one]

lemma one_vmul (c : V) : vmul (.fin 1) c = c := by
  rw [vmul_comm]
  exact vmul_one c

lemma foldl_vmul_ones (l : List V) (h : ∀ x ∈ l, x = V.fin 1) (c : V) :
    l.foldl vmul c = c := by
  induction l generalizing c with
  | nil => rfl
  | cons x r ih =>
    have hx : x = V.fin 1 := h x (by simp)
    rw [List.foldl_cons, hx, vmul_one]
    exact ih (fun z hz => h z (by simp [hz])) c

lemma range'_take (s : ℕ) :
    ∀ m k : ℕ, (List.range' s m).take k = List.range' s (min k m) := by
  intro m
  induction m generalizing s with
  | zero => intro k; simp
  | succ m2 ih =>
    intro k
    rcases Nat.eq_zero_or_pos k with h0 | h0
    · simp [h0]
    · rcases Nat.exists_eq_add_of_le h0 with ⟨k2, rfl⟩
      rw [List.range'_succ]
      have h1 : 1 + k2 = k2 + 1 := by omega
      rw [h1, List.take_succ_cons, ih (s + 1) k2]
      have h2 : min (k2 + 1) (m2 + 1) = min k2 m2 + 1 := by omega
      rw [h2, List.range'_succ]

lemma closeAt_ne_zero (data : List Obs) (i : ℕ)
    (hnz : ∀ o ∈ data, o.close ≠ 0) (hi : i < data.length) :
    closeAt data i ≠ 0 := by
  rw [closeAt, List.getElem?_eq_getElem hi]
  exact hnz (data[i]) (List.getElem_mem hi)

lemma retV_fin (data : List Obs) (i : ℕ) (hi : 1 ≤ i)
    (hnz : closeAt data (i - 1) ≠ 0) :
    retV data i = .fin (closeAt data i / closeAt data (i - 1) - 1) := by
  rw [retV, if_neg (by omega), vdiv.eq_def]
  simp only [if_neg hnz]
  rw [vsub_fin]

lemma retStratV_fin (data : List Obs) (n i : ℕ) (hi : 1 ≤ i)
    (hnz : closeAt data (i - 1) ≠ 0) :
    retStratV data n i =
      .fin ((closeAt data i / closeAt data (i - 1) - 1) *
        (if aboveB data n (i - 1) then 1 else 0)) := by
  rw [retStratV, retV_fin data i hi hnz, posV, if_neg (by omega)]
  rfl

lemma trIdx_take (data : List Obs) (y : ℕ) (t : ℕ)
    (ht : t + 1 ≤ (trIdx data y).length) :
    (trIdx data y).take (t + 1) = List.range' (i0Of data y) (t + 1) := by
  rw [(trIdx_eq data y).1, range'_take]
  have : min (t + 1) (data.length - i0Of data y) = t + 1 := by
    rw [trIdx_length] at ht
    omega
  rw [this]

/-- Generic characterisation of a `_calc_cum_ret` column of the truncated
table at a row all of whose prefix rows carry finite values: before
`start_dt` the cumulative return is 0, and at the first row on/after
`start_dt` it equals that row's own value. -/
lemma calcCumRet_trunc_zero (data : List Obs) (y : ℕ) (v : ℕ → V) (t : ℕ)
    (ht : t < (trIdx data y).length)
    (hfin : ∀ k ≤ t, ∃ q : ℚ, v (i0Of data y + k) = .fin q)
    (hbefore : ∀ k ≤ t, tsAt data (i0Of data y + k) < startDtDays y) :
    (calcCumRet ((trIdx data y).map fun i => (tsAt data i, v i))
      (startDtDays y)).getD t .nan = .fin 0 := by
  have hlenp : t < ((trIdx data y).map
      fun i => (tsAt data i, v i)).length := by simpa using ht
  rw [calcCumRet_getD_char _ _ t hlenp]
  have hgetp : ((trIdx data y).map fun i => (tsAt data i, v i)).getD t
      (0, V.nan) = (tsAt data (i0Of data y + t), v (i0Of data y + t)) := by
    rw [getD_map_of_lt _ _ t _ 0 ht, trIdx_getD data y t ht]
  obtain ⟨qt, hqt⟩ := hfin t (le_refl t)
  have hft : cumFactor (startDtDays y)
      (tsAt data (i0Of data y + t), v (i0Of data y + t)) = .fin 1 := by
    rw [cumFactor, hqt]
    simp [vmul, vadd, not_le.2 (hbefore t (le_refl t))]
  have htake : (((trIdx data y).map fun i => (tsAt data i, v i)).take
      (t + 1)).map (cumFactor (startDtDays y)) =
      (List.range' (i0Of data y) (t + 1)).map
        (fun i => cumFactor (startDtDays y) (tsAt data i, v i)) := by
    rw [← List.map_take, trIdx_take data y t (by omega), List.map_map]
    rfl
  have hones : ∀ x ∈ (List.range' (i0Of data y) (t + 1)).map
      (fun i => cumFactor (startDtDays y) (tsAt data i, v i)), x = V.fin 1 := by
    intro x hx
    obtain ⟨i, hi, rfl⟩ := List.mem_map.1 hx
    obtain ⟨hi1, hi2⟩ := List.mem_range'_1.1 hi
    obtain ⟨k, rfl⟩ := Nat.exists_eq_add_of_le hi1
    have hk : k ≤ t := by omega
    obtain ⟨q, hq⟩ := hfin k hk
    rw [cumFactor, hq]
    simp [vmul, vadd, not_le.2 (hbefore k hk)]
  rw [hgetp, hft, if_neg (by simp), htake,
    List.filter_eq_self.2 (by intro a ha; simpa using (by
      rw [hones a ha]; simp : a ≠ V.nan)),
    foldl_vmul_ones _ hones, vsub_fin]
  norm_num

/-- Companion of `calcCumRet_trunc_zero`: at the first row on/after
`start_dt` the cumulative return equals that row's own value. -/
lemma calcCumRet_trunc_first (data : List Obs) (y : ℕ) (v : ℕ → V) (t : ℕ)
    (ht : t < (trIdx data y).length)
    (hfin : ∀ k ≤ t, ∃ q : ℚ, v (i0Of data y + k) = .fin q)
    (hbefore : ∀ k < t, tsAt data (i0Of data y + k) < startDtDays y)
    (hafter : startDtDays y ≤ tsAt data (i0Of data y + t)) :
    (calcCumRet ((trIdx data y).map fun i => (tsAt data i, v i))
      (startDtDays y)).getD t .nan = v (i0Of data y + t) := by
  have hlenp : t < ((trIdx data y).map
      fun i => (tsAt data i, v i)).length := by simpa using ht
  rw [calcCumRet_getD_char _ _ t hlenp]
  have hgetp : ((trIdx data y).map fun i => (tsAt data i, v i)).getD t
      (0, V.nan) = (tsAt data (i0Of data y + t), v (i0Of data y + t)) := by
    rw [getD_map_of_lt _ _ t _ 0 ht, trIdx_getD data y t ht]
  obtain ⟨qt, hqt⟩ := hfin t (le_refl t)
  have hft : cumFactor (startDtDays y)
      (tsAt data (i0Of data y + t), v (i0Of data y + t)) =
      .fin (qt * 1 + 1) := by
    rw [cumFactor, hqt]
    simp [vmul, vadd, hafter]
  have htake : (((trIdx data y).map fun i => (tsAt data i, v i)).take
      (t + 1)).map (cumFactor (startDtDays y)) =
      ((List.range' (i0Of data y) t).map
        (fun i => cumFactor (startDtDays y) (tsAt data i, v i))) ++
      [cumFactor (startDtDays y)
        (tsAt data (i0Of data y + t), v (i0Of data y + t))] := by
    rw [← List.map_take, trIdx_take data y t (by omega), List.range'_concat,
      List.map_append, List.map_append, List.map_map, List.map_map]
    simp
  have hones : ∀ x ∈ (List.range' (i0Of data y) t).map
      (fun i => cumFactor (startDtDays y) (tsAt data i, v i)), x = V.fin 1 := by
    intro x hx
    obtain ⟨i, hi, rfl⟩ := List.mem_map.1 hx
    obtain ⟨hi1, hi2⟩ := List.mem_range'_1.1 hi
    obtain ⟨k, rfl⟩ := Nat.exists_eq_add_of_le hi1
    have hk : k < t := by omega
    obtain ⟨q, hq⟩ := hfin k (by omega)
    rw [cumFactor, hq]
    simp [vmul, vadd, not_le.2 (hbefore k hk)]
  rw [hgetp, hft, if_neg (by simp), htake]
  rw [List.filter_append, List.filter_eq_self.2 (by
      intro a ha; simpa using (by rw [hones a ha]; simp : a ≠ V.nan))]
  rw [hft]
  have hub : List.filter (· ≠ V.nan) [V.fin (qt * 1 + 1)] =
      [V.fin (qt * 1 + 1)] := by simp
  rw [hub, List.foldl_append, foldl_vmul_ones _ hones, List.foldl_cons,
    List.foldl_nil, one_vmul, vsub_fin, hqt]
  norm_num

lemma tsAt_mono (data : List Obs)
    (hsort : (data.map Obs.ts).Pairwise (· < ·)) (i j : ℕ)
    (hij : i < j) (hj : j < data.length) :
    tsAt data i < tsAt data j := by
  have hi : i < (data.map Obs.ts).length := by
    simp only [List.length_map]
    omega
  have hj2 : j < (data.map Obs.ts).length := by
    simp only [List.length_map]
    omega
  have := (List.pairwise_iff_getElem.1 hsort) i j hi hj2 hij
  rwa [tsAt_map_getElem data i hi, tsAt_map_getElem data j hj2] at this

/-- Claim C3: under the engine's input contract (sorted timestamps,
nonzero closes, at least one observation strictly before the truncation
cut), every table row with timestamp strictly before `start_year`-01-01
has both cumulative-return columns equal to 0, and the first row with
timestamp on/after `start_year`-01-01 has each cumulative-return column
equal to that row's own single-period return. -/
theorem C3_cumulative_return_zeroing (data : List Obs) (y n : ℕ)
    (hsort : (data.map Obs.ts).Pairwise (· < ·))
    (hnz : ∀ o ∈ data, o.close ≠ 0)
    (hhist : tsAt data 0 < firstPrevMonthDay y) :
    ∀ (t : ℕ) (ht : t < (backTest data y n).length),
      (((backTest data y n)[t]).ts < startDtDays y →
        ((backTest data y n)[t]).bh = .fin 0 ∧
        ((backTest data y n)[t]).strat = .fin 0) ∧
      (startDtDays y ≤ ((backTest data y n)[t]).ts →
        (∀ (k : ℕ) (hk : k < t), ((backTest data y n)[k]).ts < startDtDays y) →
        ((backTest data y n)[t]).bh = ((backTest data y n)[t]).ret ∧
        ((backTest data y n)[t]).strat = ((backTest data y n)[t]).retStrat) := by
  intro t ht
  have hL : 0 < data.length := backTest_pos_len data y n (by omega)
  have hi0 : 1 ≤ i0Of data y := i0Of_pos data y hL hhist
  have htt : t < (trIdx data y).length := by rwa [backTest_length] at ht
  have htL : i0Of data y + t < data.length := by
    rw [trIdx_length] at htt
    omega
  have hfinR : ∀ k ≤ t, ∃ q : ℚ, retV data (i0Of data y + k) = .fin q := by
    intro k hk
    exact ⟨_, retV_fin data (i0Of data y + k) (by omega)
      (closeAt_ne_zero data _ hnz (by omega))⟩
  have hfinS : ∀ k ≤ t, ∃ q : ℚ, retStratV data n (i0Of data y + k) =
      .fin q := by
    intro k hk
    exact ⟨_, retStratV_fin data n (i0Of data y + k) (by omega)
      (closeAt_ne_zero data _ hnz (by omega))⟩
  rw [backTest_row data y n t ht]
  simp only
  constructor
  · intro hlt
    have hbefore : ∀ k ≤ t, tsAt data (i0Of data y + k) < startDtDays y := by
      intro k hk
      rcases Nat.eq_or_lt_of_le hk with heq | hklt
      · subst heq
        exact hlt
      · exact lt_trans (tsAt_mono data hsort _ _ (by omega) htL) hlt
    constructor
    · rw [retPairs.eq_def]
      exact calcCumRet_trunc_zero data y (retV data) t htt hfinR hbefore
    · rw [stratPairs.eq_def]
      exact calcCumRet_trunc_zero data y (retStratV data n) t htt hfinS hbefore
  · intro hge hks
    have hbefore : ∀ k < t, tsAt data (i0Of data y + k) < startDtDays y := by
      intro k hk
      have hkt : k < (backTest data y n).length := by omega
      have := hks k hk
      rwa [backTest_row data y n k hkt] at this
    constructor
    · rw [retPairs.eq_def]
      exact calcCumRet_trunc_first data y (retV data) t htt hfinR hbefore hge
    · rw [stratPairs.eq_def]
      exact calcCumRet_trunc_first data y (retStratV data n) t htt hfinS
        hbefore hge

/-- Concrete witness data for claim C3. -/
def dataC3w : List Obs :=
  [⟨daysFromCivil 2020 10 1, 8⟩, ⟨daysFromCivil 2020 11 1, 9⟩,
   ⟨daysFromCivil 2020 12 1, 10⟩, ⟨daysFromCivil 2021 1 1, 11⟩,
   ⟨daysFromCivil 2021 2 1, 12⟩]

/-- Claim C3, witness: the hypotheses hold for `dataC3w` and the theorem
applies there. -/
theorem C3_witness :
    ((dataC3w.map Obs.ts).Pairwise (· < ·) ∧
      (∀ o ∈ dataC3w, o.close ≠ 0) ∧
      tsAt dataC3w 0 < firstPrevMonthDay 2021) ∧
    (∀ (t : ℕ) (ht : t < (backTest dataC3w 2021 2).length),
      (((backTest dataC3w 2021 2)[t]).ts < startDtDays 2021 →
        ((backTest dataC3w 2021 2)[t]).bh = .fin 0 ∧
        ((backTest dataC3w 2021 2)[t]).strat = .fin 0) ∧
      (startDtDays 2021 ≤ ((backTest dataC3w 2021 2)[t]).ts →
        (∀ (k : ℕ) (hk : k < t),
          ((backTest dataC3w 2021 2)[k]).ts < startDtDays 2021) →
        ((backTest dataC3w 2021 2)[t]).bh =
          ((backTest dataC3w 2021 2)[t]).ret ∧
        ((backTest dataC3w 2021 2)[t]).strat =
          ((backTest dataC3w 2021 2)[t]).retStrat)) :=
  ⟨⟨by decide, by decide, by decide⟩,
    C3_cumulative_return_zeroing dataC3w 2021 2 (by decide) (by decide)
      (by decide)⟩

lemma cumFactor_fin (sd ts : ℕ) (q : ℚ) :
    cumFactor sd (ts, .fin q) =
      .fin (q * (if sd ≤ ts then 1 else 0) + 1) := rfl

lemma foldl_vmul_all_fin (l : List V) (h : ∀ x ∈ l, ∃ q : ℚ, x = .fin q)
    (c : ℚ) :
    l.foldl vmul (.fin c) = .fin ((l.filterMap V.toQ).foldl (· * ·) c) := by
  induction l generalizing c with
  | nil => rfl
  | cons x r ih =>
    obtain ⟨q, rfl⟩ := h x (by simp)
    rw [List.foldl_cons]
    have : vmul (V.fin c) (V.fin q) = V.fin (c * q) := rfl
    rw [this, ih (fun z hz => h z (by simp [hz]))]
    simp [V.toQ]

lemma filter_ne_nan_of_all_fin (l : List V)
    (h : ∀ x ∈ l, ∃ q : ℚ, x = .fin q) :
    l.filter (· ≠ V.nan) = l := by
  apply List.filter_eq_self.2
  intro a ha
  obtain ⟨q, rfl⟩ := h a ha
  simp

/-- The growth index `1 + cum_return` at truncated row `j` when every
value in the prefix is finite: the product of the masked one-period
growth factors. -/
def growthQ (data : List Obs) (y : ℕ) (v : ℕ → V) (j : ℕ) : ℚ :=
  (((List.range' (i0Of data y) (j + 1)).map
      (fun i => cumFactor (startDtDays y) (tsAt data i, v i))).filterMap
    V.toQ).foldl (· * ·) 1

/-- The running maximum of the growth index over truncated rows `0..t`. -/
def peakQ (data : List Obs) (y : ℕ) (v : ℕ → V) (t : ℕ) : ℚ :=
  ((List.range' 1 t).map fun j => growthQ data y v j).foldl max
    (growthQ data y v 0)

lemma factors_all_fin (data : List Obs) (y : ℕ) (v : ℕ → V) (j : ℕ)
    (hfin : ∀ k ≤ j, ∃ q : ℚ, v (i0Of data y + k) = .fin q) :
    ∀ x ∈ (List.range' (i0Of data y) (j + 1)).map
      (fun i => cumFactor (startDtDays y) (tsAt data i, v i)),
      ∃ q : ℚ, x = .fin q := by
  intro x hx
  obtain ⟨i, hi, rfl⟩ := List.mem_map.1 hx
  obtain ⟨hi1, hi2⟩ := List.mem_range'_1.1 hi
  obtain ⟨k, rfl⟩ := Nat.exists_eq_add_of_le hi1
  obtain ⟨q, hq⟩ := hfin k (by omega)
  rw [hq, cumFactor_fin]
  exact ⟨_, rfl⟩

lemma calcCumRet_growth (data : List Obs) (y : ℕ) (v : ℕ → V) (j : ℕ)
    (hj : j < (trIdx data y).length)
    (hfin : ∀ k ≤ j, ∃ q : ℚ, v (i0Of data y + k) = .fin q) :
    (calcCumRet ((trIdx data y).map fun i => (tsAt data i, v i))
      (startDtDays y)).getD j .nan = .fin (growthQ data y v j - 1) := by
  have hlenp : j < ((trIdx data y).map
      fun i => (tsAt data i, v i)).length := by simpa using hj
  rw [calcCumRet_getD_char _ _ j hlenp]
  have hgetp : ((trIdx data y).map fun i => (tsAt data i, v i)).getD j
      (0, V.nan) = (tsAt data (i0Of data y + j), v (i0Of data y + j)) := by
    rw [getD_map_of_lt _ _ j _ 0 hj, trIdx_getD data y j hj]
  obtain ⟨qj, hqj⟩ := hfin j (le_refl j)
  have htake : (((trIdx data y).map fun i => (tsAt data i, v i)).take
      (j + 1)).map (cumFactor (startDtDays y)) =
      (List.range' (i0Of data y) (j + 1)).map
        (fun i => cumFactor (startDtDays y) (tsAt data i, v i)) := by
    rw [← List.map_take, trIdx_take data y j (by omega), List.map_map]
    rfl
  have hall := factors_all_fin data y v j hfin
  rw [hgetp, hqj, cumFactor_fin, if_neg (by simp), htake,
    filter_ne_nan_of_all_fin _ hall, foldl_vmul_all_fin _ hall 1, vsub_fin]
  rfl

lemma growthQ_pos (data : List Obs) (y : ℕ) (v : ℕ → V) (j : ℕ)
    (hfp : ∀ k ≤ j, ∃ q : ℚ, v (i0Of data y + k) = .fin q ∧ 0 < q + 1) :
    0 < growthQ data y v j := by
  apply foldl_mul_pos 1 _ one_pos
  intro x hx
  obtain ⟨a, ha, hta⟩ := List.mem_filterMap.1 hx
  obtain ⟨i, hi, rfl⟩ := List.mem_map.1 ha
  obtain ⟨hi1, hi2⟩ := List.mem_range'_1.1 hi
  obtain ⟨k, rfl⟩ := Nat.exists_eq_add_of_le hi1
  obtain ⟨q, hq, hqpos⟩ := hfp k (by omega)
  rw [hq, cumFactor_fin] at hta
  simp only [V.toQ, Option.some.injEq] at hta
  subst hta
  split_ifs <;> simp <;> linarith

lemma growthQ_le_peakQ (data : List Obs) (y : ℕ) (v : ℕ → V) (j t : ℕ)
    (hjt : j ≤ t) : growthQ data y v j ≤ peakQ data y v t := by
  rcases Nat.eq_zero_or_pos j with h0 | h0
  · subst h0
    exact le_foldl_max _ _
  · apply mem_le_foldl_max
    apply List.mem_map.2
    exact ⟨j, List.mem_range'_1.2 ⟨h0, by omega⟩, rfl⟩

lemma peakQ_le (data : List Obs) (y : ℕ) (v : ℕ → V) (t : ℕ) (B : ℚ)
    (h : ∀ j ≤ t, growthQ data y v j ≤ B) : peakQ data y v t ≤ B := by
  apply foldl_max_le _ _ _ (h 0 (Nat.zero_le t))
  intro q hq
  obtain ⟨j, hj, rfl⟩ := List.mem_map.1 hq
  obtain ⟨hj1, hj2⟩ := List.mem_range'_1.1 hj
  exact h j (by omega)

lemma foldl_vmax_ninf_fins (g : ℚ) (gs : List ℚ) :
    ((g :: gs).map V.fin).foldl vmax .ninf = .fin (gs.foldl max g) := by
  simp only [List.map_cons, List.foldl_cons]
  have h1 : vmax V.ninf (V.fin g) = V.fin g := rfl
  rw [h1, foldl_vmax_fin]

lemma cummax_growth (data : List Obs) (y : ℕ) (v : ℕ → V) (t : ℕ)
    (ht : t < (trIdx data y).length)
    (hfin : ∀ k ≤ t, ∃ q : ℚ, v (i0Of data y + k) = .fin q) :
    (cummaxSkipna ((calcCumRet ((trIdx data y).map
        fun i => (tsAt data i, v i)) (startDtDays y)).map
      (vadd (.fin 1)))).getD t .nan = .fin (peakQ data y v t) := by
  have hrcl : (calcCumRet ((trIdx data y).map fun i => (tsAt data i, v i))
      (startDtDays y)).length = (trIdx data y).length := by
    rw [calcCumRet_length, List.length_map]
  have hil : t < ((calcCumRet ((trIdx data y).map
      fun i => (tsAt data i, v i)) (startDtDays y)).map
        (vadd (.fin 1))).length := by
    simpa [hrcl] using ht
  rw [cummaxSkipna_getD _ t hil]
  have hentry : ((calcCumRet ((trIdx data y).map
      fun i => (tsAt data i, v i)) (startDtDays y)).map
      (vadd (.fin 1))).getD t .nan =
      .fin (1 + (growthQ data y v t - 1)) := by
    rw [getD_map_of_lt _ _ t _ V.nan (by omega : t < (calcCumRet
      ((trIdx data y).map fun i => (tsAt data i, v i))
        (startDtDays y)).length)]
    rw [calcCumRet_growth data y v t ht hfin]
    rfl
  have htake : (((calcCumRet ((trIdx data y).map
      fun i => (tsAt data i, v i)) (startDtDays y)).map
      (vadd (.fin 1))).take (t + 1)) =
      (List.range' 0 (t + 1)).map fun j => V.fin (growthQ data y v j) := by
    apply List.ext_getElem
    · simp only [List.length_take, List.length_map, List.length_range', hrcl]
      omega
    · intro j h1 h2
      rw [List.getElem_take, List.getElem_map, List.getElem_map,
        List.getElem_range']
      simp only [Nat.zero_add, Nat.one_mul]
      have hjb : j < (calcCumRet ((trIdx data y).map
          fun i => (tsAt data i, v i)) (startDtDays y)).length := by
        simp only [List.length_take, List.length_map, hrcl] at h1
        omega
      have hjt : j ≤ t := by
        simp only [List.length_take, List.length_map, hrcl] at h1
        omega
      have hg : (calcCumRet ((trIdx data y).map
          fun i => (tsAt data i, v i)) (startDtDays y))[j] =
          .fin (growthQ data y v j - 1) := by
        rw [← calcCumRet_growth data y v j (by omega)
          (fun k hk => hfin k (by omega)), List.getD_eq_getElem?_getD,
          List.getElem?_eq_getElem hjb]
        rfl
      rw [hg]
      show V.fin (1 + (growthQ data y v j - 1)) = V.fin (growthQ data y v j)
      congr 1
      ring
  rw [hentry, if_neg (by simp), htake,
    filter_ne_nan_of_all_fin _ (by
      intro x hx
      obtain ⟨j, _, rfl⟩ := List.mem_map.1 hx
      exact ⟨_, rfl⟩)]
  have hsplit : List.range' 0 (t + 1) = 0 :: List.range' 1 t := by
    rw [List.range'_succ]
  rw [hsplit, List.map_cons]
  have hmm : List.map (fun j => V.fin (growthQ data y v j))
      (List.range' 1 t) =
      ((List.range' 1 t).map fun j => growthQ data y v j).map V.fin := by
    rw [List.map_map]
    rfl
  rw [hmm]
  have hfold := foldl_vmax_ninf_fins (growthQ data y v 0)
    ((List.range' 1 t).map fun j => growthQ data y v j)
  rw [List.map_cons] at hfold
  rw [hfold]
  rfl

lemma dd_growth (data : List Obs) (y : ℕ) (v : ℕ → V) (t : ℕ)
    (ht : t < (trIdx data y).length)
    (hfin : ∀ k ≤ t, ∃ q : ℚ, v (i0Of data y + k) = .fin q)
    (hppos : 0 < peakQ data y v t) :
    (calcDrawdowns (calcCumRet ((trIdx data y).map
        fun i => (tsAt data i, v i)) (startDtDays y))).getD t .nan =
      .fin ((growthQ data y v t - peakQ data y v t) / peakQ data y v t) := by
  have hrcl : (calcCumRet ((trIdx data y).map fun i => (tsAt data i, v i))
      (startDtDays y)).length = (trIdx data y).length := by
    rw [calcCumRet_length, List.length_map]
  rw [calcDrawdowns_getD _ t (by omega)]
  rw [calcCumRet_growth data y v t ht hfin, cummax_growth data y v t ht hfin]
  have h1 : vadd (V.fin 1) (V.fin (growthQ data y v t - 1)) =
      V.fin (1 + (growthQ data y v t - 1)) := rfl
  rw [h1, vsub_fin, vdiv.eq_def]
  simp only [if_neg (ne_of_gt hppos)]
  congr 1
  ring

lemma closeAt_pos (data : List Obs) (i : ℕ)
    (hpos : ∀ o ∈ data, 0 < o.close) (hi : i < data.length) :
    0 < closeAt data i := by
  rw [closeAt, List.getElem?_eq_getElem hi]
  exact hpos (data[i]) (List.getElem_mem hi)

lemma dd_bound_generic (data : List Obs) (y : ℕ) (v : ℕ → V) (t : ℕ)
    (ht : t < (trIdx data y).length)
    (hfp : ∀ k ≤ t, ∃ q : ℚ, v (i0Of data y + k) = .fin q ∧ 0 < q + 1) :
    (∃ q : ℚ, q ≤ 0 ∧ (calcDrawdowns (calcCumRet ((trIdx data y).map
        fun i => (tsAt data i, v i)) (startDtDays y))).getD t .nan =
      .fin q) ∧
    ((∀ k ≤ t, vleB
        (vadd (.fin 1) ((calcCumRet ((trIdx data y).map
          fun i => (tsAt data i, v i)) (startDtDays y)).getD k .nan))
        (vadd (.fin 1) ((calcCumRet ((trIdx data y).map
          fun i => (tsAt data i, v i)) (startDtDays y)).getD t .nan)) =
          true) →
      (calcDrawdowns (calcCumRet ((trIdx data y).map
        fun i => (tsAt data i, v i)) (startDtDays y))).getD t .nan =
        .fin 0) := by
  have hfin : ∀ k ≤ t, ∃ q : ℚ, v (i0Of data y + k) = .fin q :=
    fun k hk => ⟨(hfp k hk).choose, (hfp k hk).choose_spec.1⟩
  have hppos : 0 < peakQ data y v t :=
    lt_of_lt_of_le (growthQ_pos data y v 0 fun k hk => by
      have h0 : k = 0 := by omega
      subst h0
      exact hfp 0 (Nat.zero_le t)) (le_foldl_max _ _)
  have hdd := dd_growth data y v t ht hfin hppos
  constructor
  · refine ⟨_, ?_, hdd⟩
    exact div_nonpos_iff.2 (Or.inr ⟨sub_nonpos.2
      (growthQ_le_peakQ data y v t t (le_refl t)), le_of_lt hppos⟩)
  · intro hmax
    have hGle : ∀ j ≤ t, growthQ data y v j ≤ growthQ data y v t := by
      intro j hj
      have h1 := hmax j hj
      rw [calcCumRet_growth data y v j (by omega)
          (fun k hk => hfin k (by omega)),
        calcCumRet_growth data y v t ht hfin] at h1
      have h2 : vadd (V.fin 1) (V.fin (growthQ data y v j - 1)) =
          V.fin (1 + (growthQ data y v j - 1)) := rfl
      have h3 : vadd (V.fin 1) (V.fin (growthQ data y v t - 1)) =
          V.fin (1 + (growthQ data y v t - 1)) := rfl
      rw [h2, h3] at h1
      have h4 : (1 + (growthQ data y v j - 1)) ≤
          (1 + (growthQ data y v t - 1)) := by
        have := of_decide_eq_true h1
        exact this
      linarith
    have hPG : peakQ data y v t = growthQ data y v t :=
      le_antisymm (peakQ_le data y v t _ hGle)
        (growthQ_le_peakQ data y v t t (le_refl t))
    rw [hdd, hPG, sub_self, zero_div]

/-- Claim C5: with all closes positive and the engine's input contract
(at least one observation strictly before the truncation cut), both
drawdown columns of the `back_test` table are finite and nonpositive at
every row, and a row whose growth index `1 + cum_return` is a running
maximum (at least every earlier growth index) has drawdown exactly 0. -/
theorem C5_drawdown_bound (data : List Obs) (y n : ℕ)
    (hpos : ∀ o ∈ data, 0 < o.close)
    (hhist : tsAt data 0 < firstPrevMonthDay y) :
    ∀ (t : ℕ) (ht : t < (backTest data y n).length),
      (∃ q : ℚ, q ≤ 0 ∧ ((backTest data y n)[t]).bhDd = .fin q) ∧
      (∃ q : ℚ, q ≤ 0 ∧ ((backTest data y n)[t]).stratDd = .fin q) ∧
      ((∀ (k : ℕ) (hk : k ≤ t),
          vleB (vadd (.fin 1) (((backTest data y n)[k]).bh))
            (vadd (.fin 1) (((backTest data y n)[t]).bh)) = true) →
        ((backTest data y n)[t]).bhDd = .fin 0) ∧
      ((∀ (k : ℕ) (hk : k ≤ t),
          vleB (vadd (.fin 1) (((backTest data y n)[k]).strat))
            (vadd (.fin 1) (((backTest data y n)[t]).strat)) = true) →
        ((backTest data y n)[t]).stratDd = .fin 0) := by
  intro t ht
  have hL : 0 < data.length := backTest_pos_len data y n (by omega)
  have hi0 : 1 ≤ i0Of data y := i0Of_pos data y hL hhist
  have htt : t < (trIdx data y).length := by rwa [backTest_length] at ht
  have htL : i0Of data y + t < data.length := by
    rw [trIdx_length] at htt
    omega
  have hfpR : ∀ k ≤ t, ∃ q : ℚ,
      retV data (i0Of data y + k) = .fin q ∧ 0 < q + 1 := by
    intro k hk
    refine ⟨_, retV_fin data (i0Of data y + k) (by omega)
      (ne_of_gt (closeAt_pos data _ hpos (by omega))), ?_⟩
    have h1 : 0 < closeAt data (i0Of data y + k) :=
      closeAt_pos data _ hpos (by omega)
    have h2 : 0 < closeAt data (i0Of data y + k - 1) :=
      closeAt_pos data _ hpos (by omega)
    have := div_pos h1 h2
    linarith
  have hfpS : ∀ k ≤ t, ∃ q : ℚ,
      retStratV data n (i0Of data y + k) = .fin q ∧ 0 < q + 1 := by
    intro k hk
    refine ⟨_, retStratV_fin data n (i0Of data y + k) (by omega)
      (ne_of_gt (closeAt_pos data _ hpos (by omega))), ?_⟩
    have h1 : 0 < closeAt data (i0Of data y + k) :=
      closeAt_pos data _ hpos (by omega)
    have h2 : 0 < closeAt data (i0Of data y + k - 1) :=
      closeAt_pos data _ hpos (by omega)
    have h3 := div_pos h1 h2
    split_ifs <;> simp <;> linarith
  have hR := dd_bound_generic data y (retV data) t htt hfpR
  have hS := dd_bound_generic data y (retStratV data n) t htt hfpS
  rw [backTest_row data y n t ht]
  simp only
  refine ⟨?_, ?_, ?_, ?_⟩
  · rw [retPairs.eq_def]
    exact hR.1
  · rw [stratPairs.eq_def]
    exact hS.1
  · intro hmax
    rw [retPairs.eq_def]
    apply hR.2
    intro k hk
    have := hmax k hk
    rwa [backTest_row data y n k (by omega), retPairs.eq_def] at this
  · intro hmax
    rw [stratPairs.eq_def]
    apply hS.2
    intro k hk
    have := hmax k hk
    rwa [backTest_row data y n k (by omega), stratPairs.eq_def] at this

/-- Concrete witness data for claim C5. -/
def dataC5w : List Obs :=
  [⟨daysFromCivil 2020 11 1, 10⟩, ⟨daysFromCivil 2020 12 1, 12⟩,
   ⟨daysFromCivil 2021 1 1, 9⟩, ⟨daysFromCivil 2021 2 1, 15⟩]

/-- Claim C5, witness: the hypotheses hold for `dataC5w` and the theorem
applies there. -/
theorem C5_witness :
    ((∀ o ∈ dataC5w, 0 < o.close) ∧
      tsAt dataC5w 0 < firstPrevMonthDay 2021) ∧
    (∀ (t : ℕ) (ht : t < (backTest dataC5w 2021 2).length),
      (∃ q : ℚ, q ≤ 0 ∧ ((backTest dataC5w 2021 2)[t]).bhDd = .fin q) ∧
      (∃ q : ℚ, q ≤ 0 ∧ ((backTest dataC5w 2021 2)[t]).stratDd = .fin q) ∧
      ((∀ (k : ℕ) (hk : k ≤ t),
          vleB (vadd (.fin 1) (((backTest dataC5w 2021 2)[k]).bh))
            (vadd (.fin 1) (((backTest dataC5w 2021 2)[t]).bh)) = true) →
        ((backTest dataC5w 2021 2)[t]).bhDd = .fin 0) ∧
      ((∀ (k : ℕ) (hk : k ≤ t),
          vleB (vadd (.fin 1) (((backTest dataC5w 2021 2)[k]).strat))
            (vadd (.fin 1) (((backTest dataC5w 2021 2)[t]).strat)) = true) →
        ((backTest dataC5w 2021 2)[t]).stratDd = .fin 0)) :=
  ⟨⟨by decide, by decide⟩,
    C5_drawdown_bound dataC5w 2021 2 (by decide) (by decide)⟩

lemma foldl_skip_eq_filter (xs : List V) (c : V) :
    xs.foldl (fun c x => if x = V.nan then c else vmul c x) c =
      (xs.filter (· ≠ V.nan)).foldl vmul c := by
  induction xs generalizing c with
  | nil => rfl
  | cons x r ih =>
    by_cases hx : x = V.nan <;>
      simp [List.filter_cons, hx, List.foldl_cons, ih]

lemma pandasProdSkipna_eq_filter (xs : List V) :
    pandasProdSkipna xs = (xs.filter (· ≠ V.nan)).foldl vmul (.fin 1) :=
  foldl_skip_eq_filter xs (.fin 1)

lemma vpow_fin (q e : ℚ) : vpow (V.fin q) e =
    (if q = 1 then V.fin 1 else if e.den = 1 then V.fin (q ^ e.num) else V.nan) := rfl

lemma fin_ne_nan (q : ℚ) : (V.fin q = V.nan) = False := by simp

lemma pinf_ne_nan : (V.pinf = V.nan) = False := by simp

lemma ninf_ne_nan : (V.ninf = V.nan) = False := by simp

lemma prodSkip_cons_nan (c : V) (r : List V) :
    List.foldl (fun c x => if x = V.nan then c else vmul c x) c (V.nan :: r) =
    List.foldl (fun c x => if x = V.nan then c else vmul c x) c r := by simp

lemma prodSkip_cons_fin (c : V) (q : ℚ) (r : List V) :
    List.foldl (fun c x => if x = V.nan then c else vmul c x) c (V.fin q :: r) =
    List.foldl (fun c x => if x = V.nan then c else vmul c x) (vmul c (V.fin q)) r := by
  simp

/-- Definition following the claim C6's words (comparison only):
annualized return with NaN rows excluded from both the product and the
count. -/
def annRetSpecC6 (rets : List V) : V :=
  vsub (vpow (((rets.filter (· ≠ V.nan)).map fun r =>
      vadd (.fin 1) r).foldl vmul (.fin 1))
    (12 / ((rets.filter (· ≠ V.nan)).length : ℚ))) (.fin 1)

/-- Concrete data for the claim C6 counterexample: the series starts
exactly at the truncation cut, so the first table row's return is NaN. -/
def dataC6 : List Obs :=
  [⟨daysFromCivil 2020 12 1, 1⟩, ⟨daysFromCivil 2021 1 1, 2⟩]

set_option maxHeartbeats 3200000 in
/-- Claim C6, counterexample: on a backtest table whose return column is
`[NaN, 1.0]`, `_calc_ann_ret` computes `2 ** (12/2) - 1 = 63` (the
product skips the NaN but `len(rets)` counts it), while the claim's
formula with NaN excluded from the count gives `2 ** (12/1) - 1 = 4095`. -/
theorem C6_counterexample :
    ((calcStats (backTest dataC6 2021 2)).map fun s => s.buyHold.annRet) =
      some (.fin 63) ∧
    annRetSpecC6 ((backTest dataC6 2021 2).map Row.ret) = .fin 4095 ∧
    V.fin (63 : ℚ) ≠ V.fin (4095 : ℚ) := by
  have hcol : (backTest dataC6 2021 2).map Row.ret = [V.nan, V.fin 1] := by
    norm_num [backTest, trIdx, i0Of, retPairs, stratPairs, calcCumRet,
      cumFactor, cumprodSkipna, cumprodSkipnaGo, calcDrawdowns, cummaxSkipna,
      cummaxSkipnaGo, vadd, vmul, vsub, vneg, vdiv, vmax, fillna0, smaV,
      aboveB, posV, posDiffV, tradeV, retV, retStratV, closeAt, tsAt,
      daysFromCivil, dayOfWeek, isBusinessDay, firstBusinessDayOfMonth,
      firstPrevMonthDay, startDtDays, dataC6, List.dropWhile, Function.comp,
      show List.range 2 = [0, 1] from by decide]
  have hlen : ¬ (backTest dataC6 2021 2).length = 0 := by
    have := congrArg List.length hcol
    simp only [List.length_map, List.length_cons, List.length_nil] at this
    omega
  refine ⟨?_, ?_, by norm_num⟩
  · rw [calcStats, if_neg hlen]
    simp only [Option.map_some', Option.some.injEq]
    show calcAnnRet ((backTest dataC6 2021 2).map Row.ret) = V.fin 63
    rw [hcol, calcAnnRet, pandasProdSkipna]
    norm_num [prodSkip_cons_nan, prodSkip_cons_fin, fin_ne_nan, vpow_fin,
      vadd, vmul, vsub, vneg]
  · rw [hcol]
    have hfilt : ([V.nan, V.fin 1].filter (· ≠ V.nan)) = [V.fin 1] := by
      decide
    rw [annRetSpecC6, hfilt]
    norm_num [vadd, vmul, vpow_fin, vsub, vneg]

/-- Claim C6, amended: for every nonempty backtest table, the
summariser's annualized return for each of the two return series is
`prod ** (12 / count) - 1` where the product of `1 + r` runs over the
rows with defined (non-NaN) values but `count` is the total number of
rows of the series, undefined rows included. -/
theorem C6_ann_return_formula (tbl : List Row) (hne : tbl ≠ []) :
    ((calcStats tbl).map fun s => s.buyHold.annRet) =
      some (vsub (vpow ((((tbl.map Row.ret).map fun r =>
          vadd (.fin 1) r).filter (· ≠ V.nan)).foldl vmul (.fin 1))
        (12 / ((tbl.map Row.ret).length : ℚ))) (.fin 1)) ∧
    ((calcStats tbl).map fun s => s.strategy.annRet) =
      some (vsub (vpow ((((tbl.map Row.retStrat).map fun r =>
          vadd (.fin 1) r).filter (· ≠ V.nan)).foldl vmul (.fin 1))
        (12 / ((tbl.map Row.retStrat).length : ℚ))) (.fin 1)) := by
  have hlen : ¬ tbl.length = 0 := by
    intro h
    exact hne (List.length_eq_zero.1 h)
  rw [calcStats, if_neg hlen]
  constructor <;>
    simp [statRowOf, calcAnnRet, pandasProdSkipna_eq_filter]

/-- Concrete witness table for the amended claim C6. -/
def tblC6w : List Row :=
  [{ ts := 0, close := 1, sma := .nan, pos := .nan, trade := .fin 0,
     ret := .fin 1, retStrat := .nan, bh := .nan, bhDd := .nan,
     strat := .nan, stratDd := .nan },
   { ts := 1, close := 2, sma := .nan, pos := .nan, trade := .fin 0,
     ret := .nan, retStrat := .fin 0, bh := .nan, bhDd := .nan,
     strat := .nan, stratDd := .nan }]

/-- Claim C6, witness for the amended theorem. -/
theorem C6_witness :
    tblC6w ≠ [] ∧
    (((calcStats tblC6w).map fun s => s.buyHold.annRet) =
      some (vsub (vpow ((((tblC6w.map Row.ret).map fun r =>
          vadd (.fin 1) r).filter (· ≠ V.nan)).foldl vmul (.fin 1))
        (12 / ((tblC6w.map Row.ret).length : ℚ))) (.fin 1)) ∧
    ((calcStats tblC6w).map fun s => s.strategy.annRet) =
      some (vsub (vpow ((((tblC6w.map Row.retStrat).map fun r =>
          vadd (.fin 1) r).filter (· ≠ V.nan)).foldl vmul (.fin 1))
        (12 / ((tblC6w.map Row.retStrat).length : ℚ))) (.fin 1))) :=
  ⟨by decide, C6_ann_return_formula tblC6w (by decide)⟩

/-! ## Claim C7: zero closes, infinities and NaN propagation -/

/-- Concrete data for the claim C7 counterexample: two consecutive zero
closes bracketing the start date of a 2021 backtest. -/
def dataC7 : List Obs :=
  [⟨daysFromCivil 2020 11 2, 100⟩, ⟨daysFromCivil 2020 12 1, 0⟩,
   ⟨daysFromCivil 2021 1 1, 0⟩, ⟨daysFromCivil 2021 2 1, 50⟩,
   ⟨daysFromCivil 2021 3 1, 100⟩]

set_option maxHeartbeats 6400000 in
/-- Claim C7, counterexample: `close = 0` at the 2021-01-01 row, yet the
next return is `+inf`, not NaN (`50/0 - 1` carries the sign of the
numerator), and the cumulative return on the rows after the lone NaN
return (which sits on `start_dt` itself) is `+inf`, not NaN — pandas'
`cumprod` skips NaN inputs instead of propagating them. -/
theorem C7_counterexample :
    ((backTest dataC7 2021 2).map Row.ret) =
      [V.fin (-1), V.nan, V.pinf, V.fin 1] ∧
    ((backTest dataC7 2021 2).map Row.bh) =
      [V.fin 0, V.nan, V.pinf, V.pinf] ∧
    closeAt dataC7 2 = 0 ∧ V.pinf ≠ V.nan := by
  refine ⟨?_, ?_, by decide, by decide⟩
  · norm_num [backTest, trIdx, i0Of, retPairs, stratPairs, calcCumRet,
      cumFactor, cumprodSkipna, cumprodSkipnaGo, calcDrawdowns, cummaxSkipna,
      cummaxSkipnaGo, vadd, vmul, vsub, vneg, vdiv, vmax, fillna0, smaV,
      aboveB, posV, posDiffV, tradeV, retV, retStratV, closeAt, tsAt,
      daysFromCivil, dayOfWeek, isBusinessDay, firstBusinessDayOfMonth,
      firstPrevMonthDay, startDtDays, dataC7, fin_ne_nan, pinf_ne_nan,
      ninf_ne_nan, List.dropWhile,
      Function.comp, show List.range 5 = [0, 1, 2, 3, 4] from by decide,
      show List.range 4 = [0, 1, 2, 3] from by decide]
  · norm_num [backTest, trIdx, i0Of, retPairs, stratPairs, calcCumRet,
      cumFactor, cumprodSkipna, cumprodSkipnaGo, calcDrawdowns, cummaxSkipna,
      cummaxSkipnaGo, vadd, vmul, vsub, vneg, vdiv, vmax, fillna0, smaV,
      aboveB, posV, posDiffV, tradeV, retV, retStratV, closeAt, tsAt,
      daysFromCivil, dayOfWeek, isBusinessDay, firstBusinessDayOfMonth,
      firstPrevMonthDay, startDtDays, dataC7, fin_ne_nan, pinf_ne_nan,
      ninf_ne_nan, List.dropWhile,
      Function.comp, show List.range 5 = [0, 1, 2, 3, 4] from by decide,
      show List.range 4 = [0, 1, 2, 3] from by decide]

/-- Claim C7, amended: a zero close makes the next return `NaN` only when
the next close is also zero; a positive (negative) next close gives
`+inf` (`-inf`).  And a NaN return does not poison later cumulative
values: every cumulative-return entry whose own growth factor is defined
equals the product of the defined factors up to it minus one — pandas'
`cumprod` skips NaN inputs, so only rows whose own factor is NaN are
NaN.  No exception is raised: the pipeline is total on these inputs. -/
theorem C7_zero_close_amended (data : List Obs) (i : ℕ)
    (hi : i + 1 < data.length) (h0 : closeAt data i = 0) :
    retV data (i + 1) =
      (if closeAt data (i + 1) = 0 then V.nan
       else if 0 < closeAt data (i + 1) then V.pinf else V.ninf) ∧
    (∀ (pairs : List (ℕ × V)) (sd j : ℕ), j < pairs.length →
      cumFactor sd (pairs.getD j (0, .nan)) ≠ V.nan →
      (calcCumRet pairs sd).getD j .nan =
        vsub ((((pairs.take (j + 1)).map (cumFactor sd)).filter
          (· ≠ V.nan)).foldl vmul (V.fin 1)) (.fin 1)) := by
  constructor
  · rw [retV, if_neg (Nat.succ_ne_zero i)]
    simp only [Nat.add_sub_cancel, h0]
    by_cases hc : closeAt data (i + 1) = 0
    · simp [vdiv, hc, vsub, vadd, vneg]
    · by_cases hp : 0 < closeAt data (i + 1)
      · simp [vdiv, hc, hp, vsub, vadd, vneg]
      · simp [vdiv, hc, hp, vsub, vadd, vneg]
  · intro pairs sd j hj hnz
    rw [calcCumRet_getD_char pairs sd j hj, if_neg hnz]

/-- Concrete witness data for the amended claim C7. -/
def dataC7w : List Obs := [⟨0, 0⟩, ⟨1, 5⟩]

/-- Claim C7, witness: the hypotheses hold for `dataC7w` at index 0 and
the amended theorem applies there. -/
theorem C7_witness :
    (0 + 1 < dataC7w.length ∧ closeAt dataC7w 0 = 0) ∧
    (retV dataC7w (0 + 1) =
      (if closeAt dataC7w (0 + 1) = 0 then V.nan
       else if 0 < closeAt dataC7w (0 + 1) then V.pinf else V.ninf) ∧
    (∀ (pairs : List (ℕ × V)) (sd j : ℕ), j < pairs.length →
      cumFactor sd (pairs.getD j (0, .nan)) ≠ V.nan →
      (calcCumRet pairs sd).getD j .nan =
        vsub ((((pairs.take (j + 1)).map (cumFactor sd)).filter
          (· ≠ V.nan)).foldl vmul (V.fin 1)) (.fin 1))) :=
  ⟨⟨by decide, by decide⟩, C7_zero_close_amended dataC7w 0 (by decide) (by decide)⟩

/-! ## Claim C8: flat price series -/

lemma closeAt_const (data : List Obs) (c : ℚ)
    (hconst : ∀ o ∈ data, o.close = c) (i : ℕ) (hi : i < data.length) :
    closeAt data i = c := by
  rw [closeAt, List.getElem?_eq_getElem hi]
  exact hconst (data[i]) (List.getElem_mem hi)

lemma flat_retV (data : List Obs) (c : ℚ) (hc : c ≠ 0)
    (hconst : ∀ o ∈ data, o.close = c) (i : ℕ) (hi1 : 1 ≤ i)
    (hi : i < data.length) : retV data i = .fin 0 := by
  have h1 : closeAt data (i - 1) = c := closeAt_const data c hconst _ (by omega)
  have hnz : closeAt data (i - 1) ≠ 0 := by rw [h1]; exact hc
  rw [retV_fin data i hi1 hnz, h1, closeAt_const data c hconst i hi, div_self hc]
  norm_num

lemma flat_retStratV (data : List Obs) (c : ℚ) (hc : c ≠ 0)
    (hconst : ∀ o ∈ data, o.close = c) (n i : ℕ) (hi1 : 1 ≤ i)
    (hi : i < data.length) : retStratV data n i = .fin 0 := by
  rw [retStratV, flat_retV data c hc hconst i hi1 hi, posV, if_neg (by omega)]
  simp [vmul]

lemma cumFactor_of_zero (sd ts : ℕ) : cumFactor sd (ts, .fin 0) = .fin 1 := by
  simp [cumFactor, vmul, vadd]

lemma flat_calcCumRet (data : List Obs) (y : ℕ) (v : ℕ → V)
    (hfin : ∀ i, i0Of data y ≤ i → i < data.length → v i = .fin 0) (t : ℕ)
    (ht : t < (trIdx data y).length) :
    (calcCumRet ((trIdx data y).map fun i => (tsAt data i, v i))
      (startDtDays y)).getD t .nan = .fin 0 := by
  have hiL : i0Of data y ≤ data.length := (trIdx_eq data y).2.1
  have htp : t < ((trIdx data y).map fun i => (tsAt data i, v i)).length := by
    simpa using ht
  have hvmem : ∀ i ∈ trIdx data y, v i = .fin 0 := by
    intro i hi
    rw [(trIdx_eq data y).1] at hi
    have hb := List.mem_range'_1.1 hi
    exact hfin i hb.1 (by omega)
  have hfac : cumFactor (startDtDays y)
      ((((trIdx data y).map fun i => (tsAt data i, v i)).getD t (0, .nan))) =
      .fin 1 := by
    rw [getD_map_of_lt _ _ t _ 0 ht]
    have hv : v ((trIdx data y).getD t 0) = .fin 0 := by
      apply hvmem
      rw [trIdx_getD data y t ht, (trIdx_eq data y).1]
      rw [trIdx_length] at ht
      exact List.mem_range'_1.2 ⟨by omega, by omega⟩
    rw [hv]
    exact cumFactor_of_zero _ _
  rw [calcCumRet_getD_char _ _ t htp, hfac, if_neg (by simp)]
  have hones : ∀ x ∈ ((((trIdx data y).map fun i => (tsAt data i, v i)).take
      (t + 1)).map (cumFactor (startDtDays y))).filter (· ≠ V.nan),
      x = V.fin 1 := by
    intro x hx
    have hx2 := List.mem_of_mem_filter hx
    obtain ⟨p, hp, rfl⟩ := List.mem_map.1 hx2
    have hp2 := List.mem_of_mem_take hp
    obtain ⟨i, hi, rfl⟩ := List.mem_map.1 hp2
    rw [hvmem i hi]
    exact cumFactor_of_zero _ _
  rw [foldl_vmul_ones _ hones, vsub_fin]
  norm_num

lemma foldl_vmax_ones (l : List V) (h : ∀ x ∈ l, x = V.fin 1) :
    l.foldl vmax (V.fin 1) = V.fin 1 := by
  induction l with
  | nil => rfl
  | cons x r ih =>
    have hx : x = V.fin 1 := h x (by simp)
    rw [List.foldl_cons, hx, show vmax (V.fin 1) (V.fin 1) = V.fin 1 by
      simp [vmax]]
    exact ih fun y hy => h y (by simp [hy])

lemma foldl_vmax_ninf_ones (l : List V) (h : ∀ x ∈ l, x = V.fin 1)
    (hne : l ≠ []) : l.foldl vmax .ninf = V.fin 1 := by
  cases l with
  | nil => cases hne rfl
  | cons x r =>
    have hx : x = V.fin 1 := h x (by simp)
    rw [List.foldl_cons, hx, show vmax V.ninf (V.fin 1) = V.fin 1 from rfl]
    exact foldl_vmax_ones r fun y hy => h y (by simp [hy])

lemma flat_calcDrawdowns (rc : List V) (hall : ∀ x ∈ rc, x = V.fin 0) (t : ℕ)
    (ht : t < rc.length) : (calcDrawdowns rc).getD t .nan = .fin 0 := by
  have hrc : rc.getD t .nan = V.fin 0 := by
    rw [List.getD_eq_getElem?_getD, List.getElem?_eq_getElem ht]
    exact hall _ (List.getElem_mem ht)
  have htm : t < (rc.map (vadd (.fin 1))).length := by simpa using ht
  have hx : (rc.map (vadd (.fin 1))).getD t V.nan = V.fin 1 := by
    rw [getD_map_of_lt _ _ t _ V.nan ht, hrc]
    norm_num [vadd]
  have hcm : (cummaxSkipna (rc.map (vadd (.fin 1)))).getD t .nan = V.fin 1 := by
    rw [cummaxSkipna_getD _ t htm, hx, if_neg (by simp)]
    apply foldl_vmax_ninf_ones
    · intro z hz
      have hz2 := List.mem_of_mem_filter hz
      have hz3 := List.mem_of_mem_take hz2
      obtain ⟨a, ha, rfl⟩ := List.mem_map.1 hz3
      rw [hall a ha]
      norm_num [vadd]
    · have hlt : (((rc.map (vadd (.fin 1))).take (t + 1)).filter
          (· ≠ V.nan)) = (rc.map (vadd (.fin 1))).take (t + 1) := by
        apply List.filter_eq_self.2
        intro a ha
        have ha2 := List.mem_of_mem_take ha
        obtain ⟨b, hb, rfl⟩ := List.mem_map.1 ha2
        rw [hall b hb]
        simp [vadd]
      rw [hlt]
      have : ((rc.map (vadd (.fin 1))).take (t + 1)).length = t + 1 := by
        rw [List.length_take]
        omega
      intro hnil
      rw [hnil] at this
      simp at this
  rw [calcDrawdowns_getD rc t ht, hrc, hcm]
  norm_num [vadd, vsub, vneg, vdiv]

lemma calcAnnRet_zeros (rets : List V) (h : ∀ x ∈ rets, x = V.fin 0) :
    calcAnnRet rets = .fin 0 := by
  rw [calcAnnRet, pandasProdSkipna_eq_filter]
  have h1 : (((rets.map fun r => vadd (.fin 1) r).filter
      (· ≠ V.nan)).foldl vmul (V.fin 1)) = V.fin 1 := by
    apply foldl_vmul_ones
    intro x hx
    have hx2 := List.mem_of_mem_filter hx
    obtain ⟨r, hr, rfl⟩ := List.mem_map.1 hx2
    rw [h r hr]
    norm_num [vadd]
  rw [h1]
  norm_num [vpow, vsub_fin]

lemma filterMap_toQ_zeros (l : List V) (h : ∀ x ∈ l, x = V.fin 0) :
    l.filterMap V.toQ = List.replicate l.length (0 : ℚ) := by
  induction l with
  | nil => rfl
  | cons x r ih =>
    have hx : x = V.fin 0 := h x (by simp)
    subst hx
    rw [List.filterMap_cons]
    simp only [V.toQ, List.length_cons, List.replicate_succ]
    rw [ih fun y hy => h y (by simp [hy])]

lemma calcAnnVolSq_zeros (rets : List V) (h : ∀ x ∈ rets, x = V.fin 0)
    (h2 : 2 ≤ rets.length) : calcAnnVolSq rets = .fin 0 := by
  have hflt : rets.filter (· ≠ V.nan) = rets :=
    List.filter_eq_self.2 fun a ha => by simp [h a ha]
  have hany : rets.any (fun v => v = V.pinf || v = V.ninf) = false := by
    rw [List.any_eq_false]
    intro x hx
    simp [h x hx]
  simp only [calcAnnVolSq, hflt, hany, filterMap_toQ_zeros rets h,
    Bool.false_eq_true, if_false, List.length_replicate]
  rw [if_neg (by omega)]
  have hs : (List.replicate rets.length (0 : ℚ)).sum = 0 := by
    rw [List.sum_replicate, smul_zero]
  rw [hs, List.map_replicate]
  norm_num

lemma foldl_vmin_zeros (l : List V) (h : ∀ x ∈ l, x = V.fin 0) :
    l.foldl vmin (V.fin 0) = V.fin 0 := by
  induction l with
  | nil => rfl
  | cons x r ih =>
    have hx : x = V.fin 0 := h x (by simp)
    rw [List.foldl_cons, hx, show vmin (V.fin 0) (V.fin 0) = V.fin 0 by
      simp [vmin]]
    exact ih fun y hy => h y (by simp [hy])

lemma pandasMinSkipna_zeros (dds : List V) (h : ∀ x ∈ dds, x = V.fin 0)
    (hne : dds ≠ []) : pandasMinSkipna dds = .fin 0 := by
  have hflt : dds.filter (· ≠ V.nan) = dds :=
    List.filter_eq_self.2 fun a ha => by simp [h a ha]
  simp only [pandasMinSkipna, hflt]
  rw [if_neg (by simp [List.isEmpty_iff, hne])]
  cases dds with
  | nil => cases hne rfl
  | cons x r =>
    have hx : x = V.fin 0 := h x (by simp)
    rw [List.foldl_cons, hx, show vmin V.pinf (V.fin 0) = V.fin 0 by
      simp [vmin]]
    exact foldl_vmin_zeros r fun y hy => h y (by simp [hy])

lemma calcRetOverVol_zero : calcRetOverVol (V.fin 0) (V.fin 0) = V.nan := by
  simp [calcRetOverVol]

lemma statRowOf_zeros (rets dds : List V) (hr : ∀ x ∈ rets, x = V.fin 0)
    (hd : ∀ x ∈ dds, x = V.fin 0) (h2 : 2 ≤ rets.length) (hdne : dds ≠ []) :
    statRowOf rets dds =
      { annRet := .fin 0, annVolSq := .fin 0, maxDD := .fin 0,
        retOverVol := .nan } := by
  simp only [statRowOf, calcAnnRet_zeros rets hr, calcAnnVolSq_zeros rets hr h2,
    pandasMinSkipna_zeros dds hd hdne, calcRetOverVol_zero]

/-- Concrete data for the claim C8 counterexample: a flat series whose
constant close is 0. -/
def dataC8 : List Obs :=
  [⟨daysFromCivil 2020 11 2, 0⟩, ⟨daysFromCivil 2020 12 1, 0⟩,
   ⟨daysFromCivil 2021 1 1, 0⟩]

set_option maxHeartbeats 3200000 in
/-- Claim C8, counterexample: on the flat series with constant close 0
(two table rows) every return of the table is NaN (`0/0`), not 0 as the
claim asserts for every constant close. -/
theorem C8_counterexample :
    (∀ o ∈ dataC8, o.close = 0) ∧
    ((backTest dataC8 2021 2).map Row.ret) = [V.nan, V.nan] ∧
    V.nan ≠ V.fin 0 := by
  refine ⟨by decide, ?_, by decide⟩
  norm_num [backTest, trIdx, i0Of, retPairs, stratPairs, calcCumRet,
    cumFactor, cumprodSkipna, cumprodSkipnaGo, calcDrawdowns, cummaxSkipna,
    cummaxSkipnaGo, vadd, vmul, vsub, vneg, vdiv, vmax, fillna0, smaV,
    aboveB, posV, posDiffV, tradeV, retV, retStratV, closeAt, tsAt,
    daysFromCivil, dayOfWeek, isBusinessDay, firstBusinessDayOfMonth,
    firstPrevMonthDay, startDtDays, dataC8, fin_ne_nan, pinf_ne_nan,
    ninf_ne_nan, List.dropWhile, Function.comp,
    show List.range 3 = [0, 1, 2] from by decide,
    show List.range 2 = [0, 1] from by decide]

/-- Claim C8, amended: for a flat series with constant close `c ≠ 0`
(the genuinely well-defined flat case; a constant 0 gives NaN returns),
under the input contract (one observation before the truncation cut) and
with at least two table rows: every return, strategy return, cumulative
return and drawdown of the table is exactly 0, and `calc_stats` returns
(without raising) annualized return 0, volatility 0, max drawdown 0 and
a NaN Ret/Vol ratio (`0 / 0`) for both rows of the statistics table. -/
theorem C8_flat_series_amended (data : List Obs) (y n : ℕ) (c : ℚ)
    (hc : c ≠ 0) (hconst : ∀ o ∈ data, o.close = c)
    (hhist : tsAt data 0 < firstPrevMonthDay y)
    (h2 : 2 ≤ (backTest data y n).length) :
    (∀ (t : ℕ) (ht : t < (backTest data y n).length),
      ((backTest data y n)[t]).ret = .fin 0 ∧
      ((backTest data y n)[t]).retStrat = .fin 0 ∧
      ((backTest data y n)[t]).bh = .fin 0 ∧
      ((backTest data y n)[t]).strat = .fin 0 ∧
      ((backTest data y n)[t]).bhDd = .fin 0 ∧
      ((backTest data y n)[t]).stratDd = .fin 0) ∧
    calcStats (backTest data y n) = some
      { buyHold :=
          { annRet := .fin 0, annVolSq := .fin 0,
            maxDD := .fin 0, retOverVol := .nan },
        strategy :=
          { annRet := .fin 0, annVolSq := .fin 0,
            maxDD := .fin 0, retOverVol := .nan } } := by
  have hL : 0 < data.length := backTest_pos_len data y n (by omega)
  have hi0 : 1 ≤ i0Of data y := i0Of_pos data y hL hhist
  have hiL : i0Of data y ≤ data.length := (trIdx_eq data y).2.1
  have hfinR : ∀ i, i0Of data y ≤ i → i < data.length → retV data i = .fin 0 :=
    fun i hi1 hi2 => flat_retV data c hc hconst i (by omega) hi2
  have hfinS : ∀ i, i0Of data y ≤ i → i < data.length →
      retStratV data n i = .fin 0 :=
    fun i hi1 hi2 => flat_retStratV data c hc hconst n i (by omega) hi2
  have hallBh : ∀ x ∈ calcCumRet (retPairs data y) (startDtDays y),
      x = V.fin 0 := by
    intro x hx
    obtain ⟨j, hj, rfl⟩ := List.mem_iff_getElem.1 hx
    have hj' : j < (trIdx data y).length := by
      rw [calcCumRet_length, retPairs_length] at hj
      exact hj
    have hg : (calcCumRet (retPairs data y) (startDtDays y)).getD j .nan =
        .fin 0 := by
      rw [retPairs]
      exact flat_calcCumRet data y (fun i => retV data i) hfinR j hj'
    rw [List.getD_eq_getElem?_getD, List.getElem?_eq_getElem hj] at hg
    exact hg
  have hallSt : ∀ x ∈ calcCumRet (stratPairs data y n) (startDtDays y),
      x = V.fin 0 := by
    intro x hx
    obtain ⟨j, hj, rfl⟩ := List.mem_iff_getElem.1 hx
    have hj' : j < (trIdx data y).length := by
      rw [calcCumRet_length, stratPairs_length] at hj
      exact hj
    have hg : (calcCumRet (stratPairs data y n) (startDtDays y)).getD j .nan =
        .fin 0 := by
      rw [stratPairs]
      exact flat_calcCumRet data y (fun i => retStratV data n i) hfinS j hj'
    rw [List.getD_eq_getElem?_getD, List.getElem?_eq_getElem hj] at hg
    exact hg
  have hrow : ∀ (t : ℕ) (ht : t < (backTest data y n).length),
      ((backTest data y n)[t]).ret = .fin 0 ∧
      ((backTest data y n)[t]).retStrat = .fin 0 ∧
      ((backTest data y n)[t]).bh = .fin 0 ∧
      ((backTest data y n)[t]).strat = .fin 0 ∧
      ((backTest data y n)[t]).bhDd = .fin 0 ∧
      ((backTest data y n)[t]).stratDd = .fin 0 := by
    intro t ht
    have ht' : t < (trIdx data y).length := by
      rwa [backTest_length] at ht
    have hidx : i0Of data y + t < data.length := by
      rw [trIdx_length] at ht'
      omega
    have htBh : t < (calcCumRet (retPairs data y) (startDtDays y)).length := by
      rw [calcCumRet_length, retPairs_length]
      rwa [backTest_length] at ht
    have htSt : t <
        (calcCumRet (stratPairs data y n) (startDtDays y)).length := by
      rw [calcCumRet_length, stratPairs_length]
      rwa [backTest_length] at ht
    rw [backTest_row data y n t ht]
    refine ⟨hfinR _ (by omega) hidx, hfinS _ (by omega) hidx, ?_, ?_, ?_, ?_⟩
    · rw [retPairs]
      exact flat_calcCumRet data y (fun i => retV data i) hfinR t ht'
    · rw [stratPairs]
      exact flat_calcCumRet data y (fun i => retStratV data n i) hfinS t ht'
    · exact flat_calcDrawdowns _ hallBh t htBh
    · exact flat_calcDrawdowns _ hallSt t htSt
  refine ⟨hrow, ?_⟩
  have hmr : ∀ x ∈ (backTest data y n).map Row.ret, x = V.fin 0 := by
    intro x hx
    obtain ⟨r, hr, rfl⟩ := List.mem_map.1 hx
    obtain ⟨t, ht, rfl⟩ := List.mem_iff_getElem.1 hr
    exact (hrow t ht).1
  have hms : ∀ x ∈ (backTest data y n).map Row.retStrat, x = V.fin 0 := by
    intro x hx
    obtain ⟨r, hr, rfl⟩ := List.mem_map.1 hx
    obtain ⟨t, ht, rfl⟩ := List.mem_iff_getElem.1 hr
    exact (hrow t ht).2.1
  have hmd : ∀ x ∈ (backTest data y n).map Row.bhDd, x = V.fin 0 := by
    intro x hx
    obtain ⟨r, hr, rfl⟩ := List.mem_map.1 hx
    obtain ⟨t, ht, rfl⟩ := List.mem_iff_getElem.1 hr
    exact (hrow t ht).2.2.2.2.1
  have hmsd : ∀ x ∈ (backTest data y n).map Row.stratDd, x = V.fin 0 := by
    intro x hx
    obtain ⟨r, hr, rfl⟩ := List.mem_map.1 hx
    obtain ⟨t, ht, rfl⟩ := List.mem_iff_getElem.1 hr
    exact (hrow t ht).2.2.2.2.2
  have htne : backTest data y n ≠ [] := by
    intro hnil
    rw [hnil] at h2
    simp at h2
  have hdne : (backTest data y n).map Row.bhDd ≠ [] := by
    cases hbt : backTest data y n with
    | nil => exact absurd hbt htne
    | cons a l => simp
  have hdne2 : (backTest data y n).map Row.stratDd ≠ [] := by
    cases hbt : backTest data y n with
    | nil => exact absurd hbt htne
    | cons a l => simp
  have hlr : 2 ≤ ((backTest data y n).map Row.ret).length := by simpa using h2
  have hls : 2 ≤ ((backTest data y n).map Row.retStrat).length := by
    simpa using h2
  rw [calcStats, if_neg (by omega)]
  rw [statRowOf_zeros _ _ hmr hmd hlr hdne,
    statRowOf_zeros _ _ hms hmsd hls hdne2]

/-- Concrete witness data for the amended claim C8: a flat series with
constant close 5 spanning the truncation date for a 2021 backtest. -/
def dataC8w : List Obs :=
  [⟨daysFromCivil 2020 11 2, 5⟩, ⟨daysFromCivil 2020 12 1, 5⟩,
   ⟨daysFromCivil 2021 1 1, 5⟩]

/-- Claim C8, witness: the hypotheses hold for `dataC8w` and the amended
theorem applies there. -/
theorem C8_witness :
    ((5 : ℚ) ≠ 0 ∧ (∀ o ∈ dataC8w, o.close = 5) ∧
      tsAt dataC8w 0 < firstPrevMonthDay 2021 ∧
      2 ≤ (backTest dataC8w 2021 2).length) ∧
    ((∀ (t : ℕ) (ht : t < (backTest dataC8w 2021 2).length),
      ((backTest dataC8w 2021 2)[t]).ret = .fin 0 ∧
      ((backTest dataC8w 2021 2)[t]).retStrat = .fin 0 ∧
      ((backTest dataC8w 2021 2)[t]).bh = .fin 0 ∧
      ((backTest dataC8w 2021 2)[t]).strat = .fin 0 ∧
      ((backTest dataC8w 2021 2)[t]).bhDd = .fin 0 ∧
      ((backTest dataC8w 2021 2)[t]).stratDd = .fin 0) ∧
    calcStats (backTest dataC8w 2021 2) = some
      { buyHold :=
          { annRet := .fin 0, annVolSq := .fin 0,
            maxDD := .fin 0, retOverVol := .nan },
        strategy :=
          { annRet := .fin 0, annVolSq := .fin 0,
            maxDD := .fin 0, retOverVol := .nan } }) :=
  ⟨⟨by norm_num, by decide, by decide, by decide⟩,
    C8_flat_series_amended dataC8w 2021 2 5 (by norm_num) (by decide)
      (by decide) (by decide)⟩

/-! ## Claim C10: permutation invariance of the summariser -/

lemma vmul_right_comm (b a₁ a₂ : V) :
    vmul (vmul b a₁) a₂ = vmul (vmul b a₂) a₁ := by
  rw [vmul_assoc, vmul_assoc, vmul_comm a₁ a₂]

lemma vmin_right_comm (b a₁ a₂ : V) :
    vmin (vmin b a₁) a₂ = vmin (vmin b a₂) a₁ := by
  rw [vmin_assoc, vmin_assoc, vmin_comm a₁ a₂]

lemma any_perm {l₁ l₂ : List V} (h : l₁.Perm l₂) (p : V → Bool) :
    l₁.any p = l₂.any p := by
  cases hb : l₂.any p with
  | true =>
    obtain ⟨x, hx, hpx⟩ := List.any_eq_true.1 hb
    exact List.any_eq_true.2 ⟨x, h.mem_iff.2 hx, hpx⟩
  | false =>
    rw [List.any_eq_false] at hb ⊢
    intro x hx
    exact hb x (h.mem_iff.1 hx)

lemma isEmpty_eq_of_perm {l₁ l₂ : List V} (h : l₁.Perm l₂) :
    l₁.isEmpty = l₂.isEmpty := by
  cases l₁ with
  | nil =>
    rw [(h.symm.eq_nil : l₂ = [])]
  | cons x r =>
    cases l₂ with
    | nil => exact absurd h.eq_nil (by simp)
    | cons y s => rfl

lemma pandasProdSkipna_perm {l₁ l₂ : List V} (h : l₁.Perm l₂) :
    pandasProdSkipna l₁ = pandasProdSkipna l₂ := by
  rw [pandasProdSkipna_eq_filter, pandasProdSkipna_eq_filter]
  haveI : RightCommutative vmul := ⟨vmul_right_comm⟩
  exact (h.filter _).foldl_eq _

lemma calcAnnRet_perm {l₁ l₂ : List V} (h : l₁.Perm l₂) :
    calcAnnRet l₁ = calcAnnRet l₂ := by
  rw [calcAnnRet, calcAnnRet, pandasProdSkipna_perm (h.map _), h.length_eq]

lemma sampleVarExpr_perm {qs₁ qs₂ : List ℚ} (h : qs₁.Perm qs₂) :
    (qs₁.map fun q => (q - qs₁.sum / (qs₁.length : ℚ)) ^ 2).sum =
    (qs₂.map fun q => (q - qs₂.sum / (qs₂.length : ℚ)) ^ 2).sum := by
  rw [h.sum_eq, h.length_eq, (h.map _).sum_eq]

lemma calcAnnVolSq_perm {l₁ l₂ : List V} (h : l₁.Perm l₂) :
    calcAnnVolSq l₁ = calcAnnVolSq l₂ := by
  have hf : (l₁.filter (· ≠ V.nan)).Perm (l₂.filter (· ≠ V.nan)) :=
    h.filter _
  have hq : ((l₁.filter (· ≠ V.nan)).filterMap V.toQ).Perm
      ((l₂.filter (· ≠ V.nan)).filterMap V.toQ) := hf.filterMap _
  simp only [calcAnnVolSq]
  rw [sampleVarExpr_perm hq, hq.length_eq, any_perm hf]

lemma pandasMinSkipna_perm {l₁ l₂ : List V} (h : l₁.Perm l₂) :
    pandasMinSkipna l₁ = pandasMinSkipna l₂ := by
  have hf : (l₁.filter (· ≠ V.nan)).Perm (l₂.filter (· ≠ V.nan)) :=
    h.filter _
  simp only [pandasMinSkipna]
  rw [isEmpty_eq_of_perm hf]
  haveI : RightCommutative vmin := ⟨vmin_right_comm⟩
  rw [hf.foldl_eq _]

/-- Claim C10: `calc_stats` is invariant under permutation of the rows of
its input table — every statistic it computes (skip-NaN product, sample
standard deviation, skip-NaN minimum, and the derived ratio) is
order-insensitive, as is the row count. -/
theorem C10_stats_permutation_invariant (T U : List Row) (h : T.Perm U) :
    calcStats T = calcStats U := by
  have h1 : statRowOf (T.map Row.ret) (T.map Row.bhDd) =
      statRowOf (U.map Row.ret) (U.map Row.bhDd) := by
    simp only [statRowOf]
    rw [calcAnnRet_perm (h.map _), calcAnnVolSq_perm (h.map _),
      pandasMinSkipna_perm (h.map _)]
  have h2 : statRowOf (T.map Row.retStrat) (T.map Row.stratDd) =
      statRowOf (U.map Row.retStrat) (U.map Row.stratDd) := by
    simp only [statRowOf]
    rw [calcAnnRet_perm (h.map _), calcAnnVolSq_perm (h.map _),
      pandasMinSkipna_perm (h.map _)]
  rw [calcStats, calcStats, h.length_eq, h1, h2]

/-- First row of the concrete witness tables for claim C10. -/
def rowC10a : Row :=
  { ts := 0, close := 1, sma := .nan, pos := .nan, trade := .fin 0,
    ret := .fin 1, retStrat := .fin 0, bh := .nan, bhDd := .fin 0,
    strat := .nan, stratDd := .nan }

/-- Second row of the concrete witness tables for claim C10. -/
def rowC10b : Row :=
  { ts := 1, close := 2, sma := .nan, pos := .nan, trade := .fin 0,
    ret := .fin 2, retStrat := .nan, bh := .nan, bhDd := .nan,
    strat := .nan, stratDd := .fin 0 }

/-- Claim C10, witness: a concrete two-row table and its reversal are
permutations of each other and the theorem applies there. -/
theorem C10_witness :
    ([rowC10a, rowC10b] : List Row).Perm [rowC10b, rowC10a] ∧
    calcStats [rowC10a, rowC10b] = calcStats [rowC10b, rowC10a] :=
  ⟨List.Perm.swap rowC10b rowC10a [],
    C10_stats_permutation_invariant _ _ (List.Perm.swap rowC10b rowC10a [])⟩
